import Mathlib

/-
Verification of the mini-agent-ts conversation/streaming layer.

This file gives a shallow embedding, in Lean 4, of the data model and the
operations of the repository (the provider adapters' message conversion and
streaming state machines, the unified client facade, and the agent loop),
and proves the spec's testable properties about them.

JavaScript conventions modelled explicitly:
- truthiness of optional strings (`if (s)`) is `s` present and non-empty;
- `x || d` on strings yields `d` when `x` is empty or absent;
- `JSON.parse` is modelled by an abstract parameter
  `parse : String -> Option Json`; the `try/catch` around it becomes
  `Option.getD`, so the embedded functions are total (nothing is thrown).
-/

namespace MiniAgent

/-- JSON values, the result type of parsing tool-call argument text
(`Record<string, unknown>` holding parsed JSON in the source). -/
inductive Json where
  | null : Json
  | bool (b : Bool) : Json
  | num (n : Int) : Json
  | str (s : String) : Json
  | arr (elems : List Json) : Json
  | obj (fields : List (String × Json)) : Json

/-- The empty JSON object `{}` used as the degraded argument value. -/
def Json.emptyObj : Json := Json.obj []

/-- FunctionCall from the schema (unnamed/part_001): name plus parsed arguments. -/
structure FunctionCall where
  name : String
  arguments : Json

/-- ToolCall from the schema (unnamed/part_001). -/
structure ToolCall where
  id : String
  type : String
  function : FunctionCall

/-- LLMStreamChunk from the schema (unnamed/part_001). -/
structure StreamChunk where
  content : Option String
  thinking : Option String
  tool_calls : Option (List ToolCall)
  finish_reason : Option String
  done : Bool

/-- ContentBlock from the schema (unnamed/part_001); the index signature
`[key: string]: unknown` is not observed by any embedded operation. -/
structure ContentBlock where
  type : String
  text : Option String

/-- User message content: a plain string or a list of content blocks. -/
inductive UserContent where
  | str (s : String) : UserContent
  | blocks (blocks : List ContentBlock) : UserContent

/-- Message, the discriminated union over the four roles (unnamed/part_001). -/
inductive Message where
  | system (content : String) : Message
  | user (content : UserContent) : Message
  | assistant (content : Option String) (thinking : Option String)
      (tool_calls : Option (List ToolCall)) : Message
  | tool (content : String) (tool_call_id : String) (tool_name : Option String) : Message

/-- Modelled from the spec: `LLMResponse`, the non-streaming response record
consumed by the agent loop (its declaring schema file is not among the
provided sources; the spec's loop consumes accumulated text, thinking and the
finalized tool-call list). -/
structure LLMResponse where
  content : String
  thinking : Option String
  tool_calls : Option (List ToolCall)

/-- Modelled from the spec: `RetryConfig` is declared in the repository's
config module, which is not among the provided sources; the spec defines it
as `{enabled: bool, maxRetries: int}`. -/
structure RetryConfig where
  enabled : Bool
  maxRetries : Int

/-- JavaScript truthiness of an optional string: present and non-empty. -/
def optTruthy (s : Option String) : Bool := !(s.getD "" == "")

/-- Model of `s || undefined`: a falsy (absent or empty) string becomes absent. -/
def orUndefined (s : Option String) : Option String :=
  if optTruthy s then s else none

/-! ## Adapter constructors (C10)

`OpenAIClient`/`AnthropicClient` constructors
(src/src/llm-client/openai-client.ts lines 17-30,
src/src/llm-client/anthropic-client.ts lines 20-33): the fields stored by
the shared base class plus the SDK transport options object, in which
`maxRetries` is `retryConfig.enabled ? retryConfig.maxRetries : 0`. -/

/-- Options object handed to the provider SDK transport constructor. -/
structure SDKClientOptions where
  apiKey : String
  baseURL : String
  maxRetries : Int

/-- State of a constructed OpenAIClient. -/
structure OpenAIClient where
  apiKey : String
  apiBase : String
  model : String
  retryConfig : RetryConfig
  client : SDKClientOptions

/-- OpenAIClient constructor (src/src/llm-client/openai-client.ts lines 17-30). -/
def OpenAIClient.construct (apiKey apiBase model : String)
    (retryConfig : RetryConfig) : OpenAIClient :=
  { apiKey := apiKey
    apiBase := apiBase
    model := model
    retryConfig := retryConfig
    client :=
      { apiKey := apiKey
        baseURL := apiBase
        maxRetries := if retryConfig.enabled then retryConfig.maxRetries else 0 } }

/-- State of a constructed AnthropicClient. -/
structure AnthropicClient where
  apiKey : String
  apiBase : String
  model : String
  retryConfig : RetryConfig
  client : SDKClientOptions

/-- AnthropicClient constructor (src/src/llm-client/anthropic-client.ts lines 20-33). -/
def AnthropicClient.construct (apiKey apiBase model : String)
    (retryConfig : RetryConfig) : AnthropicClient :=
  { apiKey := apiKey
    apiBase := apiBase
    model := model
    retryConfig := retryConfig
    client :=
      { apiKey := apiKey
        baseURL := apiBase
        maxRetries := if retryConfig.enabled then retryConfig.maxRetries else 0 } }

/-! ## Unified client facade (C9)

`LLMClient` constructor (src/src/llm-client/llm-client.ts lines 23-63) and
the older variant in unnamed/part_002. -/

/-- LLMProvider.ANTHROPIC (unnamed/part_001). -/
def LLMProvider.ANTHROPIC : String := "anthropic"

/-- LLMProvider.OPENAI (unnamed/part_001). -/
def LLMProvider.OPENAI : String := "openai"

/-- Model of `apiBase.replace(/\/+$/, "")`: strip all trailing slashes. -/
def stripTrailingSlashes (s : String) : String :=
  String.mk ((s.data.reverse.dropWhile (fun c => c == '/')).reverse)

/-- The adapter selected and stored by the facade. -/
inductive LLMClientInner where
  | openaiC (c : OpenAIClient) : LLMClientInner
  | anthropicC (c : AnthropicClient) : LLMClientInner

/-- State of a successfully constructed LLMClient facade. -/
structure LLMClientData where
  apiKey : String
  apiBase : String
  provider : String
  model : String
  retryConfig : RetryConfig
  inner : LLMClientInner

/-- LLMClient constructor (src/src/llm-client/llm-client.ts lines 23-63);
the `throw` of the default switch case is modelled as `Except.error`. -/
def LLMClient.construct (apiKey apiBase provider model : String)
    (retryConfig : RetryConfig) : Except String LLMClientData :=
  if provider = LLMProvider.ANTHROPIC then
    let fullApiBase := stripTrailingSlashes apiBase
    Except.ok
      { apiKey := apiKey
        apiBase := fullApiBase
        provider := provider
        model := model
        retryConfig := retryConfig
        inner := LLMClientInner.anthropicC
          (AnthropicClient.construct apiKey fullApiBase model retryConfig) }
  else if provider = LLMProvider.OPENAI then
    let fullApiBase := stripTrailingSlashes apiBase
    Except.ok
      { apiKey := apiKey
        apiBase := fullApiBase
        provider := provider
        model := model
        retryConfig := retryConfig
        inner := LLMClientInner.openaiC
          (OpenAIClient.construct apiKey fullApiBase model retryConfig) }
  else
    Except.error ("Unsupported provider: " ++ provider)

/-- The older facade variant (unnamed/part_002 lines 18-46): both recognized
providers construct the OpenAI-protocol adapter, against a per-provider
gateway path; the default case throws the same error. The adapter there takes
no retry configuration. -/
def LLMClientLegacy.construct (apiKey apiBase provider model : String) :
    Except String (String × String × String × String) :=
  if provider = LLMProvider.ANTHROPIC then
    let fullApiBase := stripTrailingSlashes apiBase ++ "/anthropic"
    Except.ok (apiKey, fullApiBase, provider, model)
  else if provider = LLMProvider.OPENAI then
    let fullApiBase := stripTrailingSlashes apiBase ++ "/v1"
    Except.ok (apiKey, fullApiBase, provider, model)
  else
    Except.error ("Unsupported provider: " ++ provider)

/-! ## Agent (C5, C6)

The agent loop (src/src/agent.ts, second document, lines 112-186) and the
stub variant (first document, lines 10-42). The model call
`this.llmClient.generate(this.messages)` is abstracted by a function
parameter `gen`; spinner and console printing are I/O and have no effect on
the returned value or the history. -/

/-- The fixed step-ceiling message
(src/src/agent.ts line 184, template interpolation of `maxSteps`). -/
def ceilingMessage (maxSteps : Nat) : String :=
  "Task couldn\x27t be completed after " ++ toString maxSteps ++ " steps."

/-- One pass of the agent loop body plus the remaining iterations
(src/src/agent.ts lines 153-185). Returns the resolved string, the final
history, and the number of model calls made. `fuel` is the number of loop
iterations left; the assistant message appended carries only content and
thinking, exactly as in the source. -/
def Agent.runFrom (gen : List Message → LLMResponse) (maxSteps : Nat) :
    List Message → Nat → Nat → String × List Message × Nat
  | msgs, calls, 0 => (ceilingMessage maxSteps, msgs, calls)
  | msgs, calls, fuel + 1 =>
    let response := gen msgs
    let msgs2 := msgs ++ [Message.assistant (some response.content) response.thinking none]
    match response.tool_calls with
    | none => (response.content, msgs2, calls + 1)
    | some _ => Agent.runFrom gen maxSteps msgs2 (calls + 1) fuel

/-- Agent.run (src/src/agent.ts lines 153-185): a for-loop of at most
`maxSteps` iterations starting from the current history. -/
def Agent.run (gen : List Message → LLMResponse) (maxSteps : Nat)
    (msgs : List Message) : String × List Message × Nat :=
  Agent.runFrom gen maxSteps msgs 0 maxSteps

/-- Agent.clearHistoryKeepSystem (src/src/agent.ts lines 147-151):
`removed = length - 1` (JavaScript number arithmetic, hence `Int`), and the
history is reset to `[this.messages[0]]`. The constructor always seeds the
history with the system message, so the list is never empty there. -/
def Agent.clearHistoryKeepSystem (msgs : List Message) : Int × List Message :=
  ((msgs.length : Int) - 1, match msgs with
    | [] => []
    | m :: _ => [m])

/-- AgentMessage of the stub agent variant (src/src/agent.ts, first document). -/
structure AgentMessage where
  role : String
  content : String

/-- clearHistoryKeepSystem of the stub agent variant (src/src/agent.ts
lines 26-30): `Math.max(0, length - 1)` and `slice(0, 1)`. -/
def AgentStub.clearHistoryKeepSystem (msgs : List AgentMessage) :
    Int × List AgentMessage :=
  (max 0 ((msgs.length : Int) - 1), msgs.take 1)

/-! ## Anthropic message conversion (C7, C8)

`AnthropicClient.convertMessages` (src/src/llm-client/anthropic-client.ts
lines 41-131). -/

/-- Provider roles occurring in Anthropic MessageParam values. -/
inductive AntRole where
  | user : AntRole
  | assistant : AntRole
deriving DecidableEq

/-- Anthropic content blocks built by the converter. `fromUser` embeds an
internal user ContentBlock passed through by the cast on user messages. -/
inductive AntBlock where
  | thinking (thinking : String) (signature : String) : AntBlock
  | text (text : String) : AntBlock
  | tool_use (id : String) (name : String) (input : Json) : AntBlock
  | tool_result (tool_use_id : String) (content : String) : AntBlock
  | fromUser (block : ContentBlock) : AntBlock

/-- Anthropic MessageParam content: a plain string or an array of blocks
(`Array.isArray` distinguishes the two at runtime). -/
inductive AntContent where
  | str (s : String) : AntContent
  | blocks (blocks : List AntBlock) : AntContent

/-- Anthropic MessageParam. -/
structure AntMessageParam where
  role : AntRole
  content : AntContent

/-- Model of `toolCall.function.arguments || {}` (line 96): a falsy JSON
value (null, false, 0, or the empty string) is replaced by `{}`. -/
def Json.orEmptyObj : Json → Json
  | Json.null => Json.emptyObj
  | Json.bool false => Json.emptyObj
  | Json.num 0 => Json.emptyObj
  | Json.str "" => Json.emptyObj
  | j => j

/-- Content blocks built for one assistant message
(src/src/llm-client/anthropic-client.ts lines 68-99): thinking block if
truthy, then text block if truthy, then one tool_use block per tool call
when the list is present and non-empty. -/
def assistantBlocks (content thinking : Option String)
    (tool_calls : Option (List ToolCall)) : List AntBlock :=
  (if optTruthy thinking then [AntBlock.thinking (thinking.getD "") ""] else [])
    ++ (if optTruthy content then [AntBlock.text (content.getD "")] else [])
    ++ (match tool_calls with
        | some tcs =>
          if tcs.length > 0 then
            tcs.map (fun tc =>
              AntBlock.tool_use tc.id tc.function.name tc.function.arguments.orEmptyObj)
          else []
        | none => [])

/-- One iteration of the conversion loop
(src/src/llm-client/anthropic-client.ts lines 47-128), threading the
`systemPrompt` variable and the `apiMessages` array. -/
def AnthropicClient.convertStep (st : Option String × List AntMessageParam)
    (msg : Message) : Option String × List AntMessageParam :=
  match msg with
  | Message.system content => (some content, st.2)
  | Message.user (UserContent.str s) =>
    (st.1, st.2 ++ [{ role := AntRole.user, content := AntContent.str s }])
  | Message.user (UserContent.blocks bs) =>
    (st.1, st.2 ++ [{ role := AntRole.user
                      content := AntContent.blocks (bs.map AntBlock.fromUser) }])
  | Message.assistant content thinking tool_calls =>
    let contentBlocks := assistantBlocks content thinking tool_calls
    if contentBlocks.length > 0 then
      (st.1, st.2 ++ [{ role := AntRole.assistant
                        content := AntContent.blocks contentBlocks }])
    else
      (st.1, st.2)
  | Message.tool content tool_call_id _ =>
    let toolResultBlock := AntBlock.tool_result tool_call_id content
    match st.2.getLast? with
    | some { role := AntRole.user, content := AntContent.blocks bs } =>
      (st.1, st.2.dropLast
        ++ [{ role := AntRole.user, content := AntContent.blocks (bs ++ [toolResultBlock]) }])
    | _ =>
      (st.1, st.2 ++ [{ role := AntRole.user
                        content := AntContent.blocks [toolResultBlock] }])

/-- AnthropicClient.convertMessages
(src/src/llm-client/anthropic-client.ts lines 41-131). -/
def AnthropicClient.convertMessages (messages : List Message) :
    Option String × List AntMessageParam :=
  messages.foldl AnthropicClient.convertStep (none, [])

/-- Whether a provider message has the user role. -/
def AntMessageParam.isUser (m : AntMessageParam) : Bool :=
  m.role = AntRole.user

/-- No two adjacent provider messages both have the user role. -/
def noTwoUserTurns : List AntMessageParam → Bool
  | [] => true
  | [_] => true
  | a :: b :: rest => (!(a.isUser && b.isUser)) && noTwoUserTurns (b :: rest)

/-- Data of one internal tool message. -/
structure ToolMsgData where
  content : String
  tool_call_id : String
  tool_name : Option String

/-- The internal tool message for a ToolMsgData. -/
def ToolMsgData.toMessage (d : ToolMsgData) : Message :=
  Message.tool d.content d.tool_call_id d.tool_name

/-- The tool_result block the converter builds for a ToolMsgData. -/
def ToolMsgData.toBlock (d : ToolMsgData) : AntBlock :=
  AntBlock.tool_result d.tool_call_id d.content

/-! ## Theorems for the agent loop and constructors -/

theorem Agent.runFrom_all_tool_calls (gen : List Message → LLMResponse)
    (maxSteps : Nat)
    (h : ∀ ms, ∃ l, (gen ms).tool_calls = some l ∧ l ≠ []) :
    ∀ (fuel : Nat) (msgs : List Message) (calls : Nat),
      (Agent.runFrom gen maxSteps msgs calls fuel).1 = ceilingMessage maxSteps
      ∧ (Agent.runFrom gen maxSteps msgs calls fuel).2.2 = calls + fuel := by
  intro fuel
  induction fuel with
  | zero => intro msgs calls; simp [Agent.runFrom]
  | succ n ih =>
    intro msgs calls
    obtain ⟨l, hl, -⟩ := h msgs
    simp only [Agent.runFrom, hl]
    have := ih (msgs ++ [Message.assistant (some (gen msgs).content) (gen msgs).thinking none]) (calls + 1)
    exact ⟨this.1, by rw [this.2]; omega⟩

/-- C5: if every model turn produces at least one tool call, `Agent.run`
resolves (the embedded loop is a total function) to the fixed step-ceiling
message after exactly `maxSteps` model calls; with `maxSteps = 1` this is
one model call (the witness instantiates that case). -/
theorem C5_run_resolves_at_step_ceiling (gen : List Message → LLMResponse)
    (maxSteps : Nat) (msgs : List Message)
    (h : ∀ ms, ∃ l, (gen ms).tool_calls = some l ∧ l ≠ []) :
    (Agent.run gen maxSteps msgs).1 = ceilingMessage maxSteps
    ∧ (Agent.run gen maxSteps msgs).2.2 = maxSteps := by
  have h2 := Agent.runFrom_all_tool_calls gen maxSteps h maxSteps msgs 0
  refine ⟨h2.1, ?_⟩
  have h3 := h2.2
  simp only [Agent.run]
  omega

/-- A concrete always-tool-calling model response for the C5 witness. -/
def alwaysToolResponse : LLMResponse :=
  { content := "x"
    thinking := none
    tool_calls := some [{ id := "call1"
                          type := "function"
                          function := { name := "bash", arguments := Json.emptyObj } }] }

/-- C5 witness: with `maxSteps = 1` and a model that always emits one tool
call, `run` resolves to the ceiling message after exactly one model call. -/
theorem C5_run_resolves_at_step_ceiling_witness :
    (Agent.run (fun _ => alwaysToolResponse) 1 [Message.system "sys"]).1
      = ceilingMessage 1
    ∧ (Agent.run (fun _ => alwaysToolResponse) 1 [Message.system "sys"]).2.2 = 1 :=
  C5_run_resolves_at_step_ceiling _ 1 _ (fun _ => ⟨_, rfl, by simp⟩)

/-- C6: on a history of length N whose first entry is the system message,
`clearHistoryKeepSystem` returns N − 1 and leaves exactly that first
message, in both the looping agent and the stub agent variant. -/
theorem C6_clearHistoryKeepSystem (m : Message) (rest : List Message)
    (am : AgentMessage) (arest : List AgentMessage) :
    Agent.clearHistoryKeepSystem (m :: rest) = (((m :: rest).length : Int) - 1, [m])
    ∧ AgentStub.clearHistoryKeepSystem (am :: arest)
      = (((am :: arest).length : Int) - 1, [am]) := by
  refine ⟨by simp [Agent.clearHistoryKeepSystem], ?_⟩
  simp only [AgentStub.clearHistoryKeepSystem, List.take_succ_cons, List.take_zero,
    Prod.mk.injEq, List.length_cons]
  refine ⟨?_, trivial⟩
  push_cast
  omega

/-- C9: the facade constructor rejects any provider identifier other than
the two fixed tokens with a descriptive error (in both the current facade
and the legacy variant), and for each recognized token it succeeds and
selects exactly the corresponding adapter. Construction is pure: no network
call is modelled or needed. -/
theorem C9_provider_selection (k b p m : String) (rc : RetryConfig)
    (hp1 : p ≠ "openai") (hp2 : p ≠ "anthropic") :
    (LLMClient.construct k b p m rc
        = Except.error ("Unsupported provider: " ++ p)
      ∧ LLMClientLegacy.construct k b p m
        = Except.error ("Unsupported provider: " ++ p))
    ∧ (∃ d, LLMClient.construct k b "anthropic" m rc = Except.ok d
        ∧ d.inner = LLMClientInner.anthropicC
            (AnthropicClient.construct k (stripTrailingSlashes b) m rc))
    ∧ (∃ d, LLMClient.construct k b "openai" m rc = Except.ok d
        ∧ d.inner = LLMClientInner.openaiC
            (OpenAIClient.construct k (stripTrailingSlashes b) m rc)) := by
  refine ⟨⟨?_, ?_⟩, ⟨_, rfl, rfl⟩, ⟨_, rfl, rfl⟩⟩ <;>
    simp [LLMClient.construct, LLMClientLegacy.construct,
      LLMProvider.ANTHROPIC, LLMProvider.OPENAI, hp1, hp2]

/-- C9 witness: the unrecognized identifier "minimax" is rejected, and both
fixed tokens are accepted. -/
theorem C9_provider_selection_witness :
    (LLMClient.construct "key" "https://api.example.com/" "minimax" "m" ⟨true, 2⟩
        = Except.error ("Unsupported provider: " ++ "minimax")
      ∧ LLMClientLegacy.construct "key" "https://api.example.com/" "minimax" "m"
        = Except.error ("Unsupported provider: " ++ "minimax"))
    ∧ (∃ d, LLMClient.construct "key" "https://api.example.com/" "anthropic" "m" ⟨true, 2⟩
          = Except.ok d
        ∧ d.inner = LLMClientInner.anthropicC
            (AnthropicClient.construct "key"
              (stripTrailingSlashes "https://api.example.com/") "m" ⟨true, 2⟩))
    ∧ (∃ d, LLMClient.construct "key" "https://api.example.com/" "openai" "m" ⟨true, 2⟩
          = Except.ok d
        ∧ d.inner = LLMClientInner.openaiC
            (OpenAIClient.construct "key"
              (stripTrailingSlashes "https://api.example.com/") "m" ⟨true, 2⟩)) :=
  C9_provider_selection "key" "https://api.example.com/" "minimax" "m" ⟨true, 2⟩
    (by decide) (by decide)

/-- C10: with retries disabled both adapters hand the transport zero
retries whatever `maxRetries` is configured; with retries enabled the
configured value is passed through unchanged. -/
theorem C10_transport_retries (k b m : String) (rc : RetryConfig) :
    (rc.enabled = false →
      (OpenAIClient.construct k b m rc).client.maxRetries = 0
      ∧ (AnthropicClient.construct k b m rc).client.maxRetries = 0)
    ∧ (rc.enabled = true →
      (OpenAIClient.construct k b m rc).client.maxRetries = rc.maxRetries
      ∧ (AnthropicClient.construct k b m rc).client.maxRetries = rc.maxRetries) := by
  constructor <;> intro h <;>
    simp [OpenAIClient.construct, AnthropicClient.construct, h]

/-- C10 witness: disabled retries give 0 even with maxRetries = 7; enabled
retries pass 7 through. -/
theorem C10_transport_retries_witness :
    (OpenAIClient.construct "k" "b" "m" ⟨false, 7⟩).client.maxRetries = 0
    ∧ (AnthropicClient.construct "k" "b" "m" ⟨false, 7⟩).client.maxRetries = 0
    ∧ (OpenAIClient.construct "k" "b" "m" ⟨true, 7⟩).client.maxRetries = 7
    ∧ (AnthropicClient.construct "k" "b" "m" ⟨true, 7⟩).client.maxRetries = 7 :=
  ⟨((C10_transport_retries "k" "b" "m" ⟨false, 7⟩).1 rfl).1,
   ((C10_transport_retries "k" "b" "m" ⟨false, 7⟩).1 rfl).2,
   ((C10_transport_retries "k" "b" "m" ⟨true, 7⟩).2 rfl).1,
   ((C10_transport_retries "k" "b" "m" ⟨true, 7⟩).2 rfl).2⟩

/-! ## Theorems about Anthropic message conversion (C7, C8) -/

theorem AnthropicClient.convertMessages_append (xs ys : List Message) :
    AnthropicClient.convertMessages (xs ++ ys)
      = ys.foldl AnthropicClient.convertStep (AnthropicClient.convertMessages xs) := by
  simp [AnthropicClient.convertMessages, List.foldl_append]

theorem assistantBlocks_nil (c t : Option String) (tc : Option (List ToolCall))
    (hc : c.getD "" = "") (ht : t.getD "" = "") (htc : tc.getD [] = []) :
    assistantBlocks c t tc = [] := by
  unfold assistantBlocks optTruthy
  rw [hc, ht]
  cases tc with
  | none => simp
  | some l =>
    simp only [Option.getD_some] at htc
    subst htc
    simp

theorem AnthropicClient.convertStep_assistant_empty
    (st : Option String × List AntMessageParam) (c t : Option String)
    (tc : Option (List ToolCall)) (hb : assistantBlocks c t tc = []) :
    AnthropicClient.convertStep st (Message.assistant c t tc) = st := by
  simp [AnthropicClient.convertStep, hb]

/-- C8: an assistant message carrying no text, no thinking and no tool calls
produces no provider message in the Anthropic adapter (the wire protocol
that rejects empty messages): converting a history with such a message gives
exactly the conversion of the history without it. -/
theorem C8_no_empty_assistant_turn (pre post : List Message)
    (c t : Option String) (tc : Option (List ToolCall))
    (hc : c.getD "" = "") (ht : t.getD "" = "") (htc : tc.getD [] = []) :
    AnthropicClient.convertMessages (pre ++ Message.assistant c t tc :: post)
      = AnthropicClient.convertMessages (pre ++ post) := by
  have hb := assistantBlocks_nil c t tc hc ht htc
  calc AnthropicClient.convertMessages (pre ++ Message.assistant c t tc :: post)
      = (Message.assistant c t tc :: post).foldl AnthropicClient.convertStep
          (AnthropicClient.convertMessages pre) :=
        AnthropicClient.convertMessages_append pre _
    _ = post.foldl AnthropicClient.convertStep
          (AnthropicClient.convertStep (AnthropicClient.convertMessages pre)
            (Message.assistant c t tc)) := rfl
    _ = post.foldl AnthropicClient.convertStep (AnthropicClient.convertMessages pre) := by
        rw [AnthropicClient.convertStep_assistant_empty _ _ _ _ hb]
    _ = AnthropicClient.convertMessages (pre ++ post) :=
        (AnthropicClient.convertMessages_append pre post).symm

/-- C8 witness: an assistant message with empty text, no thinking and an
empty tool-call list leaves the conversion of a concrete history unchanged. -/
theorem C8_no_empty_assistant_turn_witness :
    AnthropicClient.convertMessages
        [Message.system "s", Message.assistant (some "") none (some []),
          Message.user (UserContent.str "hi")]
      = AnthropicClient.convertMessages
          [Message.system "s", Message.user (UserContent.str "hi")] :=
  C8_no_empty_assistant_turn [Message.system "s"] [Message.user (UserContent.str "hi")]
    (some "") none (some []) rfl rfl rfl

theorem AnthropicClient.toolFold_merge (sp : Option String)
    (api : List AntMessageParam) :
    ∀ (ds : List ToolMsgData) (bs : List AntBlock),
      (ds.map ToolMsgData.toMessage).foldl AnthropicClient.convertStep
          (sp, api ++ [{ role := AntRole.user, content := AntContent.blocks bs }])
        = (sp, api ++ [{ role := AntRole.user
                         content := AntContent.blocks (bs ++ ds.map ToolMsgData.toBlock) }]) := by
  intro ds
  induction ds with
  | nil => intro bs; simp
  | cons d rest ih =>
    intro bs
    have hstep : AnthropicClient.convertStep
        (sp, api ++ [{ role := AntRole.user, content := AntContent.blocks bs }])
        d.toMessage
        = (sp, api ++ [{ role := AntRole.user
                         content := AntContent.blocks (bs ++ [d.toBlock]) }]) := by
      simp [AnthropicClient.convertStep, ToolMsgData.toMessage, ToolMsgData.toBlock,
        List.getLast?_concat, List.dropLast_concat]
    simp only [List.map_cons, List.foldl_cons, hstep, ih]
    simp

theorem noTwoUserTurns_append_two :
    ∀ (xs : List AntMessageParam) (a u : AntMessageParam),
      noTwoUserTurns xs = true → a.isUser = false →
      noTwoUserTurns (xs ++ [a, u]) = true
  | [], a, u, _, ha => by simp [noTwoUserTurns, AntMessageParam.isUser] at ha ⊢; simp [ha]
  | [x], a, u, _, ha => by
    simp [noTwoUserTurns, AntMessageParam.isUser] at ha ⊢
    simp [ha]
  | x :: y :: rest, a, u, h, ha => by
    have hrec := noTwoUserTurns_append_two (y :: rest) a u (by
      simp only [noTwoUserTurns, Bool.and_eq_true] at h
      exact h.2) ha
    simp only [noTwoUserTurns, Bool.and_eq_true] at h
    simp only [List.cons_append, noTwoUserTurns, Bool.and_eq_true]
    exact ⟨h.1, by simpa using hrec⟩

/-- C7: when a non-empty assistant turn (one converted to a content-block
list) is followed by one or more tool messages, the Anthropic converter puts
all resulting tool_result blocks into one single user-role provider turn
immediately after the assistant turn — each result after the first is merged
into the user turn holding the pending results — and therefore never
produces two consecutive user-role provider messages. -/
theorem C7_tool_result_pairing (pre : List Message) (c t : Option String)
    (tc : Option (List ToolCall)) (d0 : ToolMsgData) (ds : List ToolMsgData)
    (hne : 0 < (assistantBlocks c t tc).length) :
    AnthropicClient.convertMessages
        (pre ++ Message.assistant c t tc :: (d0 :: ds).map ToolMsgData.toMessage)
      = ((AnthropicClient.convertMessages pre).1,
          (AnthropicClient.convertMessages pre).2
            ++ [{ role := AntRole.assistant
                  content := AntContent.blocks (assistantBlocks c t tc) },
                { role := AntRole.user
                  content := AntContent.blocks ((d0 :: ds).map ToolMsgData.toBlock) }])
    ∧ (noTwoUserTurns (AnthropicClient.convertMessages pre).2 = true →
        noTwoUserTurns ((AnthropicClient.convertMessages pre).2
          ++ [{ role := AntRole.assistant
                content := AntContent.blocks (assistantBlocks c t tc) },
              { role := AntRole.user
                content := AntContent.blocks ((d0 :: ds).map ToolMsgData.toBlock) }])
          = true) := by
  constructor
  · rcases hcm : AnthropicClient.convertMessages pre with ⟨sp, api⟩
    have h1 : AnthropicClient.convertMessages
        (pre ++ Message.assistant c t tc :: (d0 :: ds).map ToolMsgData.toMessage)
        = ((d0 :: ds).map ToolMsgData.toMessage).foldl AnthropicClient.convertStep
            (AnthropicClient.convertStep (sp, api) (Message.assistant c t tc)) := by
      rw [AnthropicClient.convertMessages_append, hcm]
      rfl
    have h2 : AnthropicClient.convertStep (sp, api) (Message.assistant c t tc)
        = (sp, api ++ [{ role := AntRole.assistant
                         content := AntContent.blocks (assistantBlocks c t tc) }]) := by
      simp [AnthropicClient.convertStep, hne]
    have h3 : AnthropicClient.convertStep
        (sp, api ++ [{ role := AntRole.assistant
                       content := AntContent.blocks (assistantBlocks c t tc) }])
        d0.toMessage
        = (sp, (api ++ [{ role := AntRole.assistant
                          content := AntContent.blocks (assistantBlocks c t tc) }])
            ++ [{ role := AntRole.user
                  content := AntContent.blocks [d0.toBlock] }]) := by
      simp [AnthropicClient.convertStep, ToolMsgData.toMessage, ToolMsgData.toBlock,
        List.getLast?_concat]
    rw [h1, h2]
    simp only [List.map_cons, List.foldl_cons, h3]
    rw [AnthropicClient.toolFold_merge]
    simp
  · intro hpre
    exact noTwoUserTurns_append_two _ _ _ hpre rfl

/-- C7 witness: a text-bearing assistant turn followed by two tool results
converts to one assistant turn plus one merged user turn, and the output has
no two consecutive user turns. -/
theorem C7_tool_result_pairing_witness :
    AnthropicClient.convertMessages
        ([Message.user (UserContent.str "hi")]
          ++ Message.assistant (some "calling") none none
            :: ([⟨"r1", "id1", none⟩, ⟨"r2", "id2", none⟩] : List ToolMsgData).map
                ToolMsgData.toMessage)
      = ((AnthropicClient.convertMessages [Message.user (UserContent.str "hi")]).1,
          (AnthropicClient.convertMessages [Message.user (UserContent.str "hi")]).2
            ++ [{ role := AntRole.assistant
                  content := AntContent.blocks
                    (assistantBlocks (some "calling") none none) },
                { role := AntRole.user
                  content := AntContent.blocks
                    (([⟨"r1", "id1", none⟩, ⟨"r2", "id2", none⟩] : List ToolMsgData).map
                      ToolMsgData.toBlock) }])
    ∧ noTwoUserTurns ((AnthropicClient.convertMessages
          [Message.user (UserContent.str "hi")]).2
        ++ [{ role := AntRole.assistant
              content := AntContent.blocks
                (assistantBlocks (some "calling") none none) },
            { role := AntRole.user
              content := AntContent.blocks
                (([⟨"r1", "id1", none⟩, ⟨"r2", "id2", none⟩] : List ToolMsgData).map
                  ToolMsgData.toBlock) }]) = true := by
  have h := C7_tool_result_pairing [Message.user (UserContent.str "hi")]
    (some "calling") none none ⟨"r1", "id1", none⟩ [⟨"r2", "id2", none⟩]
    (by simp [assistantBlocks, optTruthy])
  exact ⟨h.1, h.2 (by rfl)⟩

/-! ## OpenAI streaming (C1-C4, variant A)

`OpenAIClient.generateStream` (src/src/llm-client/openai-client.ts
lines 136-275): the `for await` loop is embedded as a fold over the list of
chunks received from the backend, threading the mutable locals
(`toolCallAcc`, `fullContent`, `fullThinking`, `finalFinishReason`,
`finalToolCalls`, `chunkCount`) and collecting the yielded StreamChunks.
`JSON.parse` with its try/catch is the abstract `parse` parameter with
`Option.getD Json.emptyObj`. -/

/-- The `function` field of a streamed tool-call delta. -/
structure OAIFnDelta where
  name : Option String
  arguments : Option String

/-- One element of `delta.tool_calls` in a streamed chunk. -/
structure OAIToolCallDelta where
  index : Option Int
  id : Option String
  type : Option String
  function : Option OAIFnDelta

/-- Model of `typeof call.index === "number" ? call.index : 0` (line 214). -/
def OAIToolCallDelta.effIndex (c : OAIToolCallDelta) : Int := c.index.getD 0

/-- The delta carried by a streamed choice. -/
structure OAIDelta where
  content : Option String
  reasoning : Option String
  tool_calls : Option (List OAIToolCallDelta)

/-- One element of `chunk.choices`. -/
structure OAIChoice where
  delta : Option OAIDelta
  finish_reason : Option String

/-- One chunk of the OpenAI wire stream. -/
structure OAIChunk where
  choices : List OAIChoice

/-- Model of `chunk.choices[0]?.delta` (line 190). -/
def OAIChunk.delta (c : OAIChunk) : Option OAIDelta :=
  c.choices.head?.bind OAIChoice.delta

/-- Model of `chunk.choices[0]?.finish_reason` (line 191). -/
def OAIChunk.finishReason (c : OAIChunk) : Option String :=
  c.choices.head?.bind OAIChoice.finish_reason

/-- One entry of the per-index accumulator map (lines 173-181). -/
structure OAIAccEntry where
  id : String
  type : String
  name : String
  argumentsText : String

/-- The fresh accumulator entry created on first sight of an index
(lines 216-223). -/
def emptyAccEntry : OAIAccEntry :=
  { id := "", type := "function", name := "", argumentsText := "" }

/-- Mutation `if (call.id) existing.id = call.id` (line 226). -/
def updId (e : OAIAccEntry) (call : OAIToolCallDelta) : OAIAccEntry :=
  match call.id with
  | some s => if s ≠ "" then { e with id := s } else e
  | none => e

/-- Mutation `if (call.type) existing.type = call.type` (line 227). -/
def updType (e : OAIAccEntry) (call : OAIToolCallDelta) : OAIAccEntry :=
  match call.type with
  | some s => if s ≠ "" then { e with type := s } else e
  | none => e

/-- Mutation `if (call.function?.name) existing.name += call.function.name`
(line 228). -/
def updName (e : OAIAccEntry) (call : OAIToolCallDelta) : OAIAccEntry :=
  match call.function.bind OAIFnDelta.name with
  | some s => if s ≠ "" then { e with name := e.name ++ s } else e
  | none => e

/-- Mutation `if (call.function?.arguments) existing.argumentsText += ...`
(lines 229-231). -/
def updArgs (e : OAIAccEntry) (call : OAIToolCallDelta) : OAIAccEntry :=
  match call.function.bind OAIFnDelta.arguments with
  | some s => if s ≠ "" then { e with argumentsText := e.argumentsText ++ s } else e
  | none => e

/-- The in-place mutation of one accumulator entry by one tool-call delta
(lines 225-231): id and type are overwritten by truthy values, name and
argument text are appended, in source order. -/
def applyCallDelta (e : OAIAccEntry) (call : OAIToolCallDelta) : OAIAccEntry :=
  updArgs (updName (updType (updId e call) call) call) call

/-- Whether the accumulator map has an entry for a key
(`toolCallAcc.has(index)`, line 216). -/
def hasKey (acc : List (Int × OAIAccEntry)) (i : Int) : Bool :=
  acc.any (fun kv => kv.1 = i)

/-- Processing one tool-call delta against the accumulator map
(lines 213-232): insert a fresh entry on first sight of the index (the
insertion-ordered Map appends at the end), then mutate that entry. -/
def updateToolCallAcc (acc : List (Int × OAIAccEntry)) (call : OAIToolCallDelta) :
    List (Int × OAIAccEntry) :=
  let index := call.effIndex
  let acc1 := if hasKey acc index then acc else acc ++ [(index, emptyAccEntry)]
  acc1.map (fun kv => if kv.1 = index then (kv.1, applyCallDelta kv.2 call) else kv)

/-- Model of `s || d` on strings. -/
def strOr (s d : String) : String := if s = "" then d else s

/-- Parsing accumulated argument text (lines 238-245): empty text is not
parsed at all, a parse failure degrades to `{}`; in both cases the result is
the empty object. -/
def parseArgsText (parse : String → Option Json) (t : String) : Json :=
  if t = "" then Json.emptyObj else (parse t).getD Json.emptyObj

/-- Building one final ToolCall from one accumulator entry (lines 237-254). -/
def buildToolCall (parse : String → Option Json) (e : OAIAccEntry) : ToolCall :=
  { id := strOr e.id ""
    type := strOr e.type "function"
    function := { name := strOr e.name "", arguments := parseArgsText parse e.argumentsText } }

/-- Building the final tool-call list from the accumulator map
(`Array.from(toolCallAcc.values()).map(...)`, line 237). -/
def buildFinalToolCalls (parse : String → Option Json)
    (acc : List (Int × OAIAccEntry)) : List ToolCall :=
  acc.map (fun kv => buildToolCall parse kv.2)

/-- The mutable locals of one `generateStream` call (lines 173-187). -/
structure OAIState where
  toolCallAcc : List (Int × OAIAccEntry)
  fullContent : String
  fullThinking : String
  finalFinishReason : Option String
  finalToolCalls : Option (List ToolCall)
  chunkCount : Nat

/-- The locals before the first chunk arrives. -/
def initOAIState : OAIState :=
  { toolCallAcc := [], fullContent := "", fullThinking := ""
    finalFinishReason := none, finalToolCalls := none, chunkCount := 0 }

/-- One iteration of the `for await` loop (lines 189-264): update the
locals, then yield one StreamChunk. -/
def stepOAI (parse : String → Option Json) (st : OAIState) (chunk : OAIChunk) :
    OAIState × StreamChunk :=
  let delta := chunk.delta
  let finishReason := chunk.finishReason
  let newContent := if optTruthy (delta.bind OAIDelta.content) then
      st.fullContent ++ (delta.bind OAIDelta.content).getD "" else st.fullContent
  let newThinking := if optTruthy (delta.bind OAIDelta.reasoning) then
      st.fullThinking ++ (delta.bind OAIDelta.reasoning).getD "" else st.fullThinking
  let newFinalFinish := if optTruthy finishReason then finishReason
      else st.finalFinishReason
  let newAcc := match delta.bind OAIDelta.tool_calls with
    | some calls => calls.foldl updateToolCallAcc st.toolCallAcc
    | none => st.toolCallAcc
  let newFinalToolCalls := if optTruthy finishReason && !newAcc.isEmpty then
      some (buildFinalToolCalls parse newAcc) else st.finalToolCalls
  ({ toolCallAcc := newAcc
     fullContent := newContent
     fullThinking := newThinking
     finalFinishReason := newFinalFinish
     finalToolCalls := newFinalToolCalls
     chunkCount := st.chunkCount + 1 },
   { content := orUndefined (delta.bind OAIDelta.content)
     thinking := orUndefined (delta.bind OAIDelta.reasoning)
     tool_calls := newFinalToolCalls
     finish_reason := orUndefined finishReason
     done := finishReason.isSome })

/-- The chunks yielded from a given loop state onward. -/
def streamOAIGo (parse : String → Option Json) (st : OAIState) :
    List OAIChunk → List StreamChunk
  | [] => []
  | c :: cs => (stepOAI parse st c).2 :: streamOAIGo parse (stepOAI parse st c).1 cs

/-- OpenAIClient.generateStream (src/src/llm-client/openai-client.ts
lines 136-275) as the list of StreamChunks yielded for a backend stream. -/
def OpenAIClient.generateStream (parse : String → Option Json)
    (chunks : List OAIChunk) : List StreamChunk :=
  streamOAIGo parse initOAIState chunks

/-- The loop state after consuming a list of chunks. -/
def streamOAIState (parse : String → Option Json) (st : OAIState)
    (chunks : List OAIChunk) : OAIState :=
  chunks.foldl (fun s c => (stepOAI parse s c).1) st

/-! Specification-side views of a chunk stream, computed independently of the
loop state machine, used to state what the accumulator assembles. -/

/-- The tool-call deltas carried by one chunk. -/
def OAIChunk.toolCallDeltas (c : OAIChunk) : List OAIToolCallDelta :=
  (c.delta.bind OAIDelta.tool_calls).getD []

/-- All tool-call deltas of a stream, in arrival order. -/
def toolCallFragments : List OAIChunk → List OAIToolCallDelta
  | [] => []
  | c :: cs => c.toolCallDeltas ++ toolCallFragments cs

/-- The distinct effective indices of a fragment list, in first-seen order. -/
def firstSeenKeys : List OAIToolCallDelta → List Int
  | [] => []
  | f :: fs => f.effIndex :: (firstSeenKeys fs).filter (fun i => i ≠ f.effIndex)

/-- The fragments addressed to one index, in arrival order. -/
def fragsFor (fs : List OAIToolCallDelta) (i : Int) : List OAIToolCallDelta :=
  fs.filter (fun f => f.effIndex = i)

/-- The accumulator entry one index ends up with: the fold of its own
fragments only. -/
def specEntry (fs : List OAIToolCallDelta) (i : Int) : OAIAccEntry :=
  (fragsFor fs i).foldl applyCallDelta emptyAccEntry

/-- The name fragment a delta carries ("" when absent). -/
def fragName (f : OAIToolCallDelta) : String :=
  (f.function.bind OAIFnDelta.name).getD ""

/-- The argument-text fragment a delta carries ("" when absent). -/
def fragArgs (f : OAIToolCallDelta) : String :=
  (f.function.bind OAIFnDelta.arguments).getD ""

/-- Concatenation of a list of strings in order. -/
def concatStrings : List String → String
  | [] => ""
  | s :: rest => s ++ concatStrings rest

/-- The concatenation, in arrival order, of all name fragments for an index. -/
def nameConcatFor (fs : List OAIToolCallDelta) (i : Int) : String :=
  concatStrings ((fragsFor fs i).map fragName)

/-- The concatenation, in arrival order, of all argument fragments for an index. -/
def argsConcatFor (fs : List OAIToolCallDelta) (i : Int) : String :=
  concatStrings ((fragsFor fs i).map fragArgs)

/-- The fully assembled tool-call list for a stream: one ToolCall per
distinct index, in first-seen order. -/
def assembledToolCalls (parse : String → Option Json) (cs : List OAIChunk) :
    List ToolCall :=
  (firstSeenKeys (toolCallFragments cs)).map
    (fun i => buildToolCall parse (specEntry (toolCallFragments cs) i))

/-! ## Accumulator lemmas (variant A) -/

theorem updId_fields (e : OAIAccEntry) (f : OAIToolCallDelta) :
    (updId e f).name = e.name ∧ (updId e f).argumentsText = e.argumentsText := by
  unfold updId
  cases f.id with
  | none => exact ⟨rfl, rfl⟩
  | some s =>
    dsimp only
    split_ifs <;> exact ⟨rfl, rfl⟩

theorem updType_fields (e : OAIAccEntry) (f : OAIToolCallDelta) :
    (updType e f).name = e.name ∧ (updType e f).argumentsText = e.argumentsText := by
  unfold updType
  cases f.type with
  | none => exact ⟨rfl, rfl⟩
  | some s =>
    dsimp only
    split_ifs <;> exact ⟨rfl, rfl⟩

theorem updName_fields (e : OAIAccEntry) (f : OAIToolCallDelta) :
    (updName e f).name = e.name ++ fragName f
    ∧ (updName e f).argumentsText = e.argumentsText := by
  unfold updName fragName
  cases hn : f.function.bind OAIFnDelta.name with
  | none => simp
  | some s =>
    by_cases hs : s = ""
    · simp [hs]
    · simp [hs]

theorem updArgs_fields (e : OAIAccEntry) (f : OAIToolCallDelta) :
    (updArgs e f).name = e.name
    ∧ (updArgs e f).argumentsText = e.argumentsText ++ fragArgs f := by
  unfold updArgs fragArgs
  cases hn : f.function.bind OAIFnDelta.arguments with
  | none => simp
  | some s =>
    by_cases hs : s = ""
    · simp [hs]
    · simp [hs]

theorem applyCallDelta_name (e : OAIAccEntry) (f : OAIToolCallDelta) :
    (applyCallDelta e f).name = e.name ++ fragName f := by
  unfold applyCallDelta
  rw [(updArgs_fields _ f).1, (updName_fields _ f).1, (updType_fields _ f).1,
    (updId_fields _ f).1]

theorem applyCallDelta_args (e : OAIAccEntry) (f : OAIToolCallDelta) :
    (applyCallDelta e f).argumentsText = e.argumentsText ++ fragArgs f := by
  unfold applyCallDelta
  rw [(updArgs_fields _ f).2, (updName_fields _ f).2, (updType_fields _ f).2,
    (updId_fields _ f).2]

theorem concatStrings_foldl (gs : List String) :
    ∀ s : String, gs.foldl (fun a b => a ++ b) s = s ++ concatStrings gs := by
  induction gs with
  | nil => intro s; simp [concatStrings]
  | cons g gs ih =>
    intro s
    simp only [List.foldl_cons, concatStrings, ih (s ++ g), String.append_assoc]

theorem foldl_applyCallDelta_args (gs : List OAIToolCallDelta) :
    ∀ e : OAIAccEntry,
      (gs.foldl applyCallDelta e).argumentsText
        = e.argumentsText ++ concatStrings (gs.map fragArgs) := by
  induction gs with
  | nil => intro e; simp [concatStrings]
  | cons g gs ih =>
    intro e
    simp only [List.foldl_cons, List.map_cons, concatStrings, ih,
      applyCallDelta_args, String.append_assoc]

theorem foldl_applyCallDelta_name (gs : List OAIToolCallDelta) :
    ∀ e : OAIAccEntry,
      (gs.foldl applyCallDelta e).name = e.name ++ concatStrings (gs.map fragName) := by
  induction gs with
  | nil => intro e; simp [concatStrings]
  | cons g gs ih =>
    intro e
    simp only [List.foldl_cons, List.map_cons, concatStrings, ih,
      applyCallDelta_name, String.append_assoc]

theorem specEntry_args (fs : List OAIToolCallDelta) (i : Int) :
    (specEntry fs i).argumentsText = argsConcatFor fs i := by
  simp [specEntry, argsConcatFor, foldl_applyCallDelta_args, emptyAccEntry]

theorem specEntry_name (fs : List OAIToolCallDelta) (i : Int) :
    (specEntry fs i).name = nameConcatFor fs i := by
  simp [specEntry, nameConcatFor, foldl_applyCallDelta_name, emptyAccEntry]

theorem mem_firstSeenKeys (i : Int) :
    ∀ fs : List OAIToolCallDelta,
      i ∈ firstSeenKeys fs ↔ i ∈ fs.map OAIToolCallDelta.effIndex := by
  intro fs
  induction fs with
  | nil => simp [firstSeenKeys]
  | cons f fs ih =>
    by_cases hi : i = f.effIndex
    · subst hi; simp [firstSeenKeys]
    · simp [firstSeenKeys, List.mem_filter, hi, ih]

theorem firstSeenKeys_nodup : ∀ fs : List OAIToolCallDelta, (firstSeenKeys fs).Nodup := by
  intro fs
  induction fs with
  | nil => simp [firstSeenKeys]
  | cons f fs ih =>
    simp only [firstSeenKeys, List.nodup_cons]
    refine ⟨?_, ih.filter _⟩
    intro hmem
    have := (List.mem_filter.mp hmem).2
    simp at this

theorem firstSeenKeys_concat (fs : List OAIToolCallDelta) (f : OAIToolCallDelta) :
    firstSeenKeys (fs ++ [f])
      = if f.effIndex ∈ firstSeenKeys fs then firstSeenKeys fs
        else firstSeenKeys fs ++ [f.effIndex] := by
  induction fs with
  | nil => simp [firstSeenKeys]
  | cons g fs ih =>
    rw [List.cons_append]
    by_cases hmem : f.effIndex ∈ firstSeenKeys fs
    · have hmem2 : f.effIndex ∈ firstSeenKeys (g :: fs) := by
        by_cases hg : f.effIndex = g.effIndex
        · simp [firstSeenKeys, hg]
        · simp [firstSeenKeys, List.mem_filter, hmem, hg]
      rw [if_pos hmem2]
      show g.effIndex :: (firstSeenKeys (fs ++ [f])).filter (fun i => i ≠ g.effIndex)
        = firstSeenKeys (g :: fs)
      rw [ih, if_pos hmem]
      rfl
    · by_cases hg : f.effIndex = g.effIndex
      · have hmem2 : f.effIndex ∈ firstSeenKeys (g :: fs) := by simp [firstSeenKeys, hg]
        rw [if_pos hmem2]
        show g.effIndex :: (firstSeenKeys (fs ++ [f])).filter (fun i => i ≠ g.effIndex)
          = firstSeenKeys (g :: fs)
        rw [ih, if_neg hmem, List.filter_append]
        have hfil : ([f.effIndex].filter (fun i => i ≠ g.effIndex)) = [] := by
          simp [hg]
        rw [hfil, List.append_nil]
        rfl
      · have hmem2 : f.effIndex ∉ firstSeenKeys (g :: fs) := by
          simp [firstSeenKeys, List.mem_filter, hmem, hg]
        rw [if_neg hmem2]
        show g.effIndex :: (firstSeenKeys (fs ++ [f])).filter (fun i => i ≠ g.effIndex)
          = firstSeenKeys (g :: fs) ++ [f.effIndex]
        rw [ih, if_neg hmem, List.filter_append]
        have hfil : ([f.effIndex].filter (fun i => i ≠ g.effIndex)) = [f.effIndex] := by
          simp [hg]
        rw [hfil]
        rfl

theorem fragsFor_concat (fs : List OAIToolCallDelta) (f : OAIToolCallDelta) (i : Int) :
    fragsFor (fs ++ [f]) i = fragsFor fs i ++ if f.effIndex = i then [f] else [] := by
  simp only [fragsFor, List.filter_append]
  congr 1
  by_cases h : f.effIndex = i <;> simp [h]

theorem specEntry_concat (fs : List OAIToolCallDelta) (f : OAIToolCallDelta) (i : Int) :
    specEntry (fs ++ [f]) i
      = if f.effIndex = i then applyCallDelta (specEntry fs i) f else specEntry fs i := by
  simp only [specEntry, fragsFor_concat]
  by_cases h : f.effIndex = i <;> simp [h, List.foldl_append]

theorem specEntry_of_not_mem (fs : List OAIToolCallDelta) (i : Int)
    (h : i ∉ fs.map OAIToolCallDelta.effIndex) : specEntry fs i = emptyAccEntry := by
  have hfil : fragsFor fs i = [] := by
    rw [fragsFor, List.filter_eq_nil_iff]
    intro f hf
    simp only [decide_eq_true_eq]
    intro heq
    exact h (List.mem_map.mpr ⟨f, hf, heq⟩)
  simp [specEntry, hfil]

theorem hasKey_keysMap (keys : List Int) (g : Int → OAIAccEntry) (j : Int) :
    hasKey (keys.map (fun i => (i, g i))) j = true ↔ j ∈ keys := by
  simp [hasKey, List.any_map, List.any_eq_true, Function.comp]

theorem updateAcc_keysMap (fs : List OAIToolCallDelta) (f : OAIToolCallDelta) :
    updateToolCallAcc ((firstSeenKeys fs).map (fun i => (i, specEntry fs i))) f
      = (firstSeenKeys (fs ++ [f])).map (fun i => (i, specEntry (fs ++ [f]) i)) := by
  have hpoint : ∀ i : Int,
      (if i = f.effIndex
        then (i, applyCallDelta (specEntry fs i) f)
        else (i, specEntry fs i))
      = (i, specEntry (fs ++ [f]) i) := by
    intro i
    rw [specEntry_concat]
    by_cases h : i = f.effIndex
    · simp [h]
    · have h2 : ¬ f.effIndex = i := fun hh => h hh.symm
      simp [h, h2]
  by_cases hmem : f.effIndex ∈ firstSeenKeys fs
  · have hk : hasKey ((firstSeenKeys fs).map (fun i => (i, specEntry fs i))) f.effIndex
        = true := (hasKey_keysMap _ _ _).mpr hmem
    simp only [updateToolCallAcc, hk, if_true, List.map_map]
    rw [firstSeenKeys_concat, if_pos hmem]
    refine List.map_congr_left (fun i _ => ?_)
    simpa using hpoint i
  · have hk : ¬ hasKey ((firstSeenKeys fs).map (fun i => (i, specEntry fs i))) f.effIndex
        = true := fun h => hmem ((hasKey_keysMap _ _ _).mp h)
    have hempty : specEntry fs f.effIndex = emptyAccEntry :=
      specEntry_of_not_mem fs f.effIndex
        (fun h => hmem ((mem_firstSeenKeys _ _).mpr h))
    have hacc1 : (firstSeenKeys fs).map (fun i => (i, specEntry fs i))
        ++ [(f.effIndex, emptyAccEntry)]
        = (firstSeenKeys fs ++ [f.effIndex]).map (fun i => (i, specEntry fs i)) := by
      rw [List.map_append, List.map_singleton, hempty]
    simp only [updateToolCallAcc, hk, if_false, Bool.false_eq_true, hacc1, List.map_map]
    rw [firstSeenKeys_concat, if_neg hmem]
    refine List.map_congr_left (fun i _ => ?_)
    simpa using hpoint i

theorem fragFold_spec : ∀ fs : List OAIToolCallDelta,
    fs.foldl updateToolCallAcc []
      = (firstSeenKeys fs).map (fun i => (i, specEntry fs i)) := by
  intro fs
  induction fs using List.reverseRecOn with
  | nil => simp [firstSeenKeys]
  | append_singleton fs f ih =>
    rw [List.foldl_append, List.foldl_cons, List.foldl_nil, ih, updateAcc_keysMap]

theorem stepOAI_fst_toolCallAcc (parse : String → Option Json) (st : OAIState)
    (c : OAIChunk) :
    (stepOAI parse st c).1.toolCallAcc
      = c.toolCallDeltas.foldl updateToolCallAcc st.toolCallAcc := by
  simp only [stepOAI, OAIChunk.toolCallDeltas]
  cases h : c.delta.bind OAIDelta.tool_calls <;> simp [h]

theorem stepOAI_fst_finalToolCalls (parse : String → Option Json) (st : OAIState)
    (c : OAIChunk) :
    (stepOAI parse st c).1.finalToolCalls
      = if optTruthy c.finishReason
            && !((c.toolCallDeltas.foldl updateToolCallAcc st.toolCallAcc).isEmpty) then
          some (buildFinalToolCalls parse
            (c.toolCallDeltas.foldl updateToolCallAcc st.toolCallAcc))
        else st.finalToolCalls := by
  simp only [stepOAI, OAIChunk.toolCallDeltas]
  cases h : c.delta.bind OAIDelta.tool_calls <;> simp [h]

theorem stepOAI_snd_tool_calls (parse : String → Option Json) (st : OAIState)
    (c : OAIChunk) :
    (stepOAI parse st c).2.tool_calls = (stepOAI parse st c).1.finalToolCalls := by
  simp only [stepOAI]

theorem stepOAI_snd_done (parse : String → Option Json) (st : OAIState)
    (c : OAIChunk) :
    (stepOAI parse st c).2.done = c.finishReason.isSome := by
  simp only [stepOAI]

theorem streamOAIState_toolCallAcc (parse : String → Option Json) :
    ∀ (cs : List OAIChunk) (st : OAIState),
      (streamOAIState parse st cs).toolCallAcc
        = (toolCallFragments cs).foldl updateToolCallAcc st.toolCallAcc := by
  intro cs
  induction cs with
  | nil => intro st; simp [streamOAIState, toolCallFragments]
  | cons c cs ih =>
    intro st
    simp only [streamOAIState, List.foldl_cons] at *
    rw [ih, toolCallFragments, List.foldl_append, stepOAI_fst_toolCallAcc]

theorem streamOAIState_finalToolCalls_none (parse : String → Option Json) :
    ∀ (cs : List OAIChunk) (st : OAIState),
      (∀ c ∈ cs, c.finishReason = none) → st.finalToolCalls = none →
      (streamOAIState parse st cs).finalToolCalls = none := by
  intro cs
  induction cs with
  | nil => intro st _ h0; simpa [streamOAIState] using h0
  | cons c cs ih =>
    intro st hall h0
    have hc : c.finishReason = none := hall c (List.mem_cons_self c cs)
    have hstep : (stepOAI parse st c).1.finalToolCalls = none := by
      rw [stepOAI_fst_finalToolCalls, hc]
      simpa [optTruthy] using h0
    simp only [streamOAIState, List.foldl_cons]
    exact ih _ (fun x hx => hall x (List.mem_cons_of_mem c hx)) hstep

theorem streamOAIGo_concat (parse : String → Option Json) :
    ∀ (cs : List OAIChunk) (st : OAIState) (c : OAIChunk),
      streamOAIGo parse st (cs ++ [c])
        = streamOAIGo parse st cs
          ++ [(stepOAI parse (streamOAIState parse st cs) c).2] := by
  intro cs
  induction cs with
  | nil => intro st c; simp [streamOAIGo, streamOAIState]
  | cons d cs ih =>
    intro st c
    simp only [List.cons_append, streamOAIGo, streamOAIState, List.foldl_cons]
    rw [show (cs.append [c]) = cs ++ [c] from rfl, ih (stepOAI parse st d).1 c]
    rfl

/-! ## Anthropic streaming (C1-C4, variant B)

`AnthropicClient.generateStream` (src/src/llm-client/anthropic-client.ts
lines 189-332): the `for await` loop over block-lifecycle events, embedded
as a fold threading the locals (`fullContent`, `fullThinking`, `chunkCount`,
`finishReason`, `accumulatedToolCalls`, `currentToolCall`) and collecting
the yielded StreamChunks (zero or one per event). -/

/-- The delta payload of a content_block_delta event. -/
inductive AntDelta where
  | text_delta (text : String) : AntDelta
  | thinking_delta (thinking : Option String) : AntDelta
  | input_json_delta (pjson : String) : AntDelta
  | other_delta : AntDelta
deriving DecidableEq

/-- One event of the Anthropic wire stream; events not inspected by the
loop collapse to `other`. A content_block_start whose block is not a
tool_use matches no branch and is `content_block_start_other`. -/
inductive AntEvent where
  | content_block_delta (delta : AntDelta) : AntEvent
  | content_block_start_tool_use (id : String) (name : String) : AntEvent
  | content_block_start_other : AntEvent
  | content_block_stop : AntEvent
  | message_delta (stop_reason : Option String) : AntEvent
  | message_stop : AntEvent
  | other : AntEvent
deriving DecidableEq

/-- The temporary buffer for the currently-open tool_use block (lines 224-228). -/
structure AntCurrentTool where
  id : String
  name : String
  inputJSON : String

/-- The mutable locals of one `generateStream` call (lines 217-228). -/
structure AntState where
  fullContent : String
  fullThinking : String
  chunkCount : Nat
  finishReason : Option String
  accumulatedToolCalls : List ToolCall
  currentToolCall : Option AntCurrentTool

/-- The locals before the first event arrives. -/
def initAntState : AntState :=
  { fullContent := "", fullThinking := "", chunkCount := 0
    finishReason := none, accumulatedToolCalls := [], currentToolCall := none }

/-- Model of `JSON.parse(currentToolCall.inputJSON || "{}")` with its
try/catch (lines 285-291): empty accumulated text is replaced by the literal
"{}", and a parse failure leaves the initial `{}`. -/
def antParseArgs (parse : String → Option Json) (t : String) : Json :=
  (parse (strOr t "\x7b\x7d")).getD Json.emptyObj

/-- The ToolCall built at content_block_stop (lines 292-299). -/
def mkAntToolCall (parse : String → Option Json) (cur : AntCurrentTool) : ToolCall :=
  { id := cur.id
    type := "function"
    function := { name := cur.name, arguments := antParseArgs parse cur.inputJSON } }

/-- One iteration of the `for await` loop (lines 233-322): update the
locals and yield zero or one StreamChunks. -/
def stepAnt (parse : String → Option Json) (st : AntState) (e : AntEvent) :
    AntState × List StreamChunk :=
  let st0 := { st with chunkCount := st.chunkCount + 1 }
  match e with
  | AntEvent.content_block_delta (AntDelta.text_delta text) =>
    ({ st0 with fullContent := st0.fullContent ++ text },
     [{ content := some text, thinking := none, tool_calls := none
        finish_reason := none, done := false }])
  | AntEvent.content_block_delta (AntDelta.thinking_delta thinking) =>
    if optTruthy thinking then
      ({ st0 with fullThinking := st0.fullThinking ++ thinking.getD "" },
       [{ content := none, thinking := thinking, tool_calls := none
          finish_reason := none, done := false }])
    else (st0, [])
  | AntEvent.content_block_delta (AntDelta.input_json_delta pjson) =>
    (match st0.currentToolCall with
     | some cur =>
       { st0 with currentToolCall := some { cur with inputJSON := cur.inputJSON ++ pjson } }
     | none => st0, [])
  | AntEvent.content_block_delta AntDelta.other_delta => (st0, [])
  | AntEvent.content_block_start_tool_use id name =>
    ({ st0 with currentToolCall := some { id := id, name := name, inputJSON := "" } }, [])
  | AntEvent.content_block_start_other => (st0, [])
  | AntEvent.content_block_stop =>
    (match st0.currentToolCall with
     | some cur =>
       { st0 with
         accumulatedToolCalls := st0.accumulatedToolCalls ++ [mkAntToolCall parse cur]
         currentToolCall := none }
     | none => st0, [])
  | AntEvent.message_delta stop_reason =>
    (if optTruthy stop_reason then { st0 with finishReason := stop_reason } else st0, [])
  | AntEvent.message_stop =>
    (st0,
     [{ content := none, thinking := none
        tool_calls := if st0.accumulatedToolCalls.isEmpty then none
          else some st0.accumulatedToolCalls
        finish_reason := some (strOr (st0.finishReason.getD "") "end_turn")
        done := true }])
  | AntEvent.other => (st0, [])

/-- The chunks yielded from a given loop state onward. -/
def streamAntGo (parse : String → Option Json) (st : AntState) :
    List AntEvent → List StreamChunk
  | [] => []
  | e :: es => (stepAnt parse st e).2 ++ streamAntGo parse (stepAnt parse st e).1 es

/-- AnthropicClient.generateStream (src/src/llm-client/anthropic-client.ts
lines 189-332) as the list of StreamChunks yielded for a backend event
stream. -/
def AnthropicClient.generateStream (parse : String → Option Json)
    (events : List AntEvent) : List StreamChunk :=
  streamAntGo parse initAntState events

/-- The loop state after consuming a list of events. -/
def streamAntState (parse : String → Option Json) (st : AntState)
    (events : List AntEvent) : AntState :=
  events.foldl (fun s e => (stepAnt parse s e).1) st

/-! Specification-side views of an event stream. -/

/-- The completed tool_use blocks of an event list, given the currently-open
block: a block closes at each content_block_stop with an open buffer; a new
tool_use start replaces the open buffer; json deltas append to it. -/
def blocksFrom (cur : Option AntCurrentTool) : List AntEvent → List AntCurrentTool
  | [] => []
  | e :: es =>
    match e with
    | AntEvent.content_block_start_tool_use id name =>
      blocksFrom (some { id := id, name := name, inputJSON := "" }) es
    | AntEvent.content_block_delta (AntDelta.input_json_delta pjson) =>
      blocksFrom (cur.map (fun c => { c with inputJSON := c.inputJSON ++ pjson })) es
    | AntEvent.content_block_stop =>
      (match cur with | some c => [c] | none => []) ++ blocksFrom none es
    | _ => blocksFrom cur es

/-- The open buffer left after an event list. -/
def curAfter (cur : Option AntCurrentTool) : List AntEvent → Option AntCurrentTool
  | [] => cur
  | e :: es =>
    match e with
    | AntEvent.content_block_start_tool_use id name =>
      curAfter (some { id := id, name := name, inputJSON := "" }) es
    | AntEvent.content_block_delta (AntDelta.input_json_delta pjson) =>
      curAfter (cur.map (fun c => { c with inputJSON := c.inputJSON ++ pjson })) es
    | AntEvent.content_block_stop => curAfter none es
    | _ => curAfter cur es

/-- The completed tool_use blocks of a whole event stream. -/
def toolBlocks (events : List AntEvent) : List AntCurrentTool :=
  blocksFrom none events

/-- The json fragment an event carries, if any. -/
def eventJsonFragment : AntEvent → Option String
  | AntEvent.content_block_delta (AntDelta.input_json_delta pjson) => some pjson
  | _ => none

/-- Concatenation, in arrival order, of all json fragments of an event list. -/
def jsonConcat (events : List AntEvent) : String :=
  concatStrings (events.filterMap eventJsonFragment)

/-- Whether an event opens or closes a tool_use block. -/
def isBlockBoundary : AntEvent → Bool
  | AntEvent.content_block_start_tool_use _ _ => true
  | AntEvent.content_block_stop => true
  | _ => false

/-! ## Streaming lemmas (variant B) -/

theorem streamAntState_cur (parse : String → Option Json) :
    ∀ (evs : List AntEvent) (st : AntState),
      (streamAntState parse st evs).currentToolCall
        = curAfter st.currentToolCall evs := by
  intro evs
  induction evs with
  | nil => intro st; simp [streamAntState, curAfter]
  | cons e es ih =>
    intro st
    show (streamAntState parse (stepAnt parse st e).1 es).currentToolCall = _
    rw [ih]
    cases e with
    | content_block_delta d =>
      cases d with
      | text_delta t => simp [stepAnt, curAfter]
      | thinking_delta t =>
        by_cases h : optTruthy t = true <;> simp [stepAnt, curAfter, h]
      | input_json_delta pj =>
        cases hc : st.currentToolCall with
        | none => simp [stepAnt, curAfter, hc]
        | some cur => simp [stepAnt, curAfter, hc]
      | other_delta => simp [stepAnt, curAfter]
    | content_block_start_tool_use i n => simp [stepAnt, curAfter]
    | content_block_start_other => simp [stepAnt, curAfter]
    | content_block_stop =>
      cases hc : st.currentToolCall with
      | none => simp [stepAnt, curAfter, hc]
      | some cur => simp [stepAnt, curAfter, hc]
    | message_delta sr =>
      by_cases h : optTruthy sr = true <;> simp [stepAnt, curAfter, h]
    | message_stop => simp [stepAnt, curAfter]
    | other => simp [stepAnt, curAfter]

theorem streamAntState_acc (parse : String → Option Json) :
    ∀ (evs : List AntEvent) (st : AntState),
      (streamAntState parse st evs).accumulatedToolCalls
        = st.accumulatedToolCalls
          ++ (blocksFrom st.currentToolCall evs).map (mkAntToolCall parse) := by
  intro evs
  induction evs with
  | nil => intro st; simp [streamAntState, blocksFrom]
  | cons e es ih =>
    intro st
    show (streamAntState parse (stepAnt parse st e).1 es).accumulatedToolCalls = _
    rw [ih]
    cases e with
    | content_block_delta d =>
      cases d with
      | text_delta t => simp [stepAnt, blocksFrom]
      | thinking_delta t =>
        by_cases h : optTruthy t = true <;> simp [stepAnt, blocksFrom, h]
      | input_json_delta pj =>
        cases hc : st.currentToolCall with
        | none => simp [stepAnt, blocksFrom, hc]
        | some cur => simp [stepAnt, blocksFrom, hc]
      | other_delta => simp [stepAnt, blocksFrom]
    | content_block_start_tool_use i n => simp [stepAnt, blocksFrom]
    | content_block_start_other => simp [stepAnt, blocksFrom]
    | content_block_stop =>
      cases hc : st.currentToolCall with
      | none => simp [stepAnt, blocksFrom, hc]
      | some cur => simp [stepAnt, blocksFrom, hc]
    | message_delta sr =>
      by_cases h : optTruthy sr = true <;> simp [stepAnt, blocksFrom, h]
    | message_stop => simp [stepAnt, blocksFrom]
    | other => simp [stepAnt, blocksFrom]

theorem streamAntGo_append (parse : String → Option Json) :
    ∀ (xs ys : List AntEvent) (st : AntState),
      streamAntGo parse st (xs ++ ys)
        = streamAntGo parse st xs
          ++ streamAntGo parse (streamAntState parse st xs) ys := by
  intro xs
  induction xs with
  | nil => intro ys st; simp [streamAntGo, streamAntState]
  | cons e es ih =>
    intro ys st
    simp only [List.cons_append, streamAntGo, streamAntState, List.foldl_cons]
    rw [show (es.append ys) = es ++ ys from rfl, ih ys (stepAnt parse st e).1,
      List.append_assoc]
    rfl

theorem antGo_done_false_tool_calls_none (parse : String → Option Json) :
    ∀ (evs : List AntEvent) (st : AntState),
      ∀ out ∈ streamAntGo parse st evs, out.done = false → out.tool_calls = none := by
  intro evs
  induction evs with
  | nil => intro st out hmem; simp [streamAntGo] at hmem
  | cons e es ih =>
    intro st out hmem hdone
    rw [show streamAntGo parse st (e :: es)
        = (stepAnt parse st e).2 ++ streamAntGo parse (stepAnt parse st e).1 es from rfl]
      at hmem
    rcases List.mem_append.mp hmem with hl | hr
    · cases e with
      | content_block_delta d =>
        cases d with
        | text_delta t => simp [stepAnt] at hl; simp [hl]
        | thinking_delta t =>
          by_cases h : optTruthy t = true
          · simp [stepAnt, h] at hl; simp [hl]
          · simp [stepAnt, h] at hl
        | input_json_delta pj =>
          cases hc : st.currentToolCall <;> simp [stepAnt, hc] at hl
        | other_delta => simp [stepAnt] at hl
      | content_block_start_tool_use i n => simp [stepAnt] at hl
      | content_block_start_other => simp [stepAnt] at hl
      | content_block_stop =>
        cases hc : st.currentToolCall <;> simp [stepAnt, hc] at hl
      | message_delta sr =>
        by_cases h : optTruthy sr = true <;> simp [stepAnt, h] at hl
      | message_stop =>
        simp [stepAnt] at hl
        rw [hl] at hdone
        simp at hdone
      | other => simp [stepAnt] at hl
    · exact ih _ out hr hdone

theorem antGo_no_message_stop_done_false (parse : String → Option Json) :
    ∀ (evs : List AntEvent) (st : AntState),
      (∀ e ∈ evs, e ≠ AntEvent.message_stop) →
      ∀ out ∈ streamAntGo parse st evs, out.done = false := by
  intro evs
  induction evs with
  | nil => intro st _ out hmem; simp [streamAntGo] at hmem
  | cons e es ih =>
    intro st hno out hmem
    rw [show streamAntGo parse st (e :: es)
        = (stepAnt parse st e).2 ++ streamAntGo parse (stepAnt parse st e).1 es from rfl]
      at hmem
    rcases List.mem_append.mp hmem with hl | hr
    · cases e with
      | content_block_delta d =>
        cases d with
        | text_delta t => simp [stepAnt] at hl; simp [hl]
        | thinking_delta t =>
          by_cases h : optTruthy t = true
          · simp [stepAnt, h] at hl; simp [hl]
          · simp [stepAnt, h] at hl
        | input_json_delta pj =>
          cases hc : st.currentToolCall <;> simp [stepAnt, hc] at hl
        | other_delta => simp [stepAnt] at hl
      | content_block_start_tool_use i n => simp [stepAnt] at hl
      | content_block_start_other => simp [stepAnt] at hl
      | content_block_stop =>
        cases hc : st.currentToolCall <;> simp [stepAnt, hc] at hl
      | message_delta sr =>
        by_cases h : optTruthy sr = true <;> simp [stepAnt, h] at hl
      | message_stop =>
        exact absurd rfl (hno AntEvent.message_stop (List.mem_cons_self _ _))
      | other => simp [stepAnt] at hl
    · exact ih _ (fun x hx => hno x (List.mem_cons_of_mem e hx)) out hr

theorem blocksFrom_append :
    ∀ (xs ys : List AntEvent) (cur : Option AntCurrentTool),
      blocksFrom cur (xs ++ ys)
        = blocksFrom cur xs ++ blocksFrom (curAfter cur xs) ys := by
  intro xs
  induction xs with
  | nil => intro ys cur; simp [blocksFrom, curAfter]
  | cons e es ih =>
    intro ys cur
    cases e with
    | content_block_delta d =>
      cases d with
      | text_delta t => simpa [blocksFrom, curAfter] using ih ys cur
      | thinking_delta t => simpa [blocksFrom, curAfter] using ih ys cur
      | input_json_delta pj =>
        simpa [blocksFrom, curAfter] using
          ih ys (cur.map (fun c => { c with inputJSON := c.inputJSON ++ pj }))
      | other_delta => simpa [blocksFrom, curAfter] using ih ys cur
    | content_block_start_tool_use i n =>
      simpa [blocksFrom, curAfter] using
        ih ys (some { id := i, name := n, inputJSON := "" })
    | content_block_start_other => simpa [blocksFrom, curAfter] using ih ys cur
    | content_block_stop =>
      cases cur with
      | none => simpa [blocksFrom, curAfter] using ih ys none
      | some c => simpa [blocksFrom, curAfter, List.append_assoc] using ih ys none
    | message_delta sr => simpa [blocksFrom, curAfter] using ih ys cur
    | message_stop => simpa [blocksFrom, curAfter] using ih ys cur
    | other => simpa [blocksFrom, curAfter] using ih ys cur

theorem jsonConcat_cons_json (pj : String) (evs : List AntEvent) :
    jsonConcat (AntEvent.content_block_delta (AntDelta.input_json_delta pj) :: evs)
      = pj ++ jsonConcat evs := by
  simp [jsonConcat, eventJsonFragment, concatStrings]

theorem jsonConcat_cons_none (e : AntEvent) (evs : List AntEvent)
    (he : eventJsonFragment e = none) :
    jsonConcat (e :: evs) = jsonConcat evs := by
  simp [jsonConcat, List.filterMap_cons, he]

theorem blocksFrom_neutral :
    ∀ (mids : List AntEvent), (∀ e ∈ mids, isBlockBoundary e = false) →
      ∀ (i n s : String) (post : List AntEvent),
        blocksFrom (some { id := i, name := n, inputJSON := s })
            (mids ++ AntEvent.content_block_stop :: post)
          = { id := i, name := n, inputJSON := s ++ jsonConcat mids }
              :: blocksFrom none post := by
  intro mids
  induction mids with
  | nil =>
    intro _ i n s post
    simp [blocksFrom, jsonConcat, concatStrings]
  | cons e es ih =>
    intro hno i n s post
    have hes : ∀ x ∈ es, isBlockBoundary x = false :=
      fun x hx => hno x (List.mem_cons_of_mem e hx)
    have he : isBlockBoundary e = false := hno e (List.mem_cons_self _ _)
    cases e with
    | content_block_delta d =>
      cases d with
      | text_delta t =>
        rw [List.cons_append, show blocksFrom (some { id := i, name := n, inputJSON := s })
            (AntEvent.content_block_delta (AntDelta.text_delta t)
              :: (es ++ AntEvent.content_block_stop :: post))
          = blocksFrom (some { id := i, name := n, inputJSON := s })
              (es ++ AntEvent.content_block_stop :: post) from rfl,
          ih hes, jsonConcat_cons_none
            (AntEvent.content_block_delta (AntDelta.text_delta t)) es rfl]
      | thinking_delta t =>
        rw [List.cons_append, show blocksFrom (some { id := i, name := n, inputJSON := s })
            (AntEvent.content_block_delta (AntDelta.thinking_delta t)
              :: (es ++ AntEvent.content_block_stop :: post))
          = blocksFrom (some { id := i, name := n, inputJSON := s })
              (es ++ AntEvent.content_block_stop :: post) from rfl,
          ih hes, jsonConcat_cons_none
            (AntEvent.content_block_delta (AntDelta.thinking_delta t)) es rfl]
      | input_json_delta pj =>
        rw [List.cons_append, show blocksFrom (some { id := i, name := n, inputJSON := s })
            (AntEvent.content_block_delta (AntDelta.input_json_delta pj)
              :: (es ++ AntEvent.content_block_stop :: post))
          = blocksFrom (some { id := i, name := n, inputJSON := s ++ pj })
              (es ++ AntEvent.content_block_stop :: post) from rfl,
          ih hes, jsonConcat_cons_json, String.append_assoc]
      | other_delta =>
        rw [List.cons_append, show blocksFrom (some { id := i, name := n, inputJSON := s })
            (AntEvent.content_block_delta AntDelta.other_delta
              :: (es ++ AntEvent.content_block_stop :: post))
          = blocksFrom (some { id := i, name := n, inputJSON := s })
              (es ++ AntEvent.content_block_stop :: post) from rfl,
          ih hes, jsonConcat_cons_none
            (AntEvent.content_block_delta AntDelta.other_delta) es rfl]
    | content_block_start_tool_use i2 n2 => simp [isBlockBoundary] at he
    | content_block_start_other =>
      rw [List.cons_append, show blocksFrom (some { id := i, name := n, inputJSON := s })
          (AntEvent.content_block_start_other :: (es ++ AntEvent.content_block_stop :: post))
        = blocksFrom (some { id := i, name := n, inputJSON := s })
            (es ++ AntEvent.content_block_stop :: post) from rfl,
        ih hes, jsonConcat_cons_none AntEvent.content_block_start_other es rfl]
    | content_block_stop => simp [isBlockBoundary] at he
    | message_delta sr =>
      rw [List.cons_append, show blocksFrom (some { id := i, name := n, inputJSON := s })
          (AntEvent.message_delta sr :: (es ++ AntEvent.content_block_stop :: post))
        = blocksFrom (some { id := i, name := n, inputJSON := s })
            (es ++ AntEvent.content_block_stop :: post) from rfl,
        ih hes, jsonConcat_cons_none (AntEvent.message_delta sr) es rfl]
    | message_stop =>
      rw [List.cons_append, show blocksFrom (some { id := i, name := n, inputJSON := s })
          (AntEvent.message_stop :: (es ++ AntEvent.content_block_stop :: post))
        = blocksFrom (some { id := i, name := n, inputJSON := s })
            (es ++ AntEvent.content_block_stop :: post) from rfl,
        ih hes, jsonConcat_cons_none AntEvent.message_stop es rfl]
    | other =>
      rw [List.cons_append, show blocksFrom (some { id := i, name := n, inputJSON := s })
          (AntEvent.other :: (es ++ AntEvent.content_block_stop :: post))
        = blocksFrom (some { id := i, name := n, inputJSON := s })
            (es ++ AntEvent.content_block_stop :: post) from rfl,
        ih hes, jsonConcat_cons_none AntEvent.other es rfl]

/-! ## Final-chunk characterization helpers -/

theorem concat_eq_append_cons {α : Type} (xs : List α) (y : α) :
    ∀ (l r : List α) (out : α),
      xs ++ [y] = l ++ out :: r → out ∈ xs ∨ (out = y ∧ r = []) := by
  intro l r out h
  rcases List.eq_nil_or_concat r with hr | ⟨r2, z, hz⟩
  · subst hr
    have h2 := congrArg List.getLast? h
    rw [List.getLast?_concat, List.getLast?_concat] at h2
    right
    exact ⟨(Option.some_inj.mp h2).symm, rfl⟩
  · rw [List.concat_eq_append] at hz
    subst hz
    have hre : l ++ out :: (r2 ++ [z]) = (l ++ out :: r2) ++ [z] := by simp
    rw [hre] at h
    have hxs := congrArg List.dropLast h
    rw [List.dropLast_concat, List.dropLast_concat] at hxs
    left
    rw [hxs]
    exact List.mem_append_right _ (List.mem_cons_self _ _)

theorem toolCallFragments_append (xs ys : List OAIChunk) :
    toolCallFragments (xs ++ ys) = toolCallFragments xs ++ toolCallFragments ys := by
  induction xs with
  | nil => simp [toolCallFragments]
  | cons c cs ih => simp [toolCallFragments, ih]

theorem toolCallFragments_eq_nil_iff (cs : List OAIChunk) :
    toolCallFragments cs = [] ↔ ∀ c ∈ cs, c.toolCallDeltas = [] := by
  induction cs with
  | nil => simp [toolCallFragments]
  | cons c cs ih => simp [toolCallFragments, List.append_eq_nil, ih]

theorem oai_full_fold (parse : String → Option Json) (cs : List OAIChunk)
    (clast : OAIChunk) :
    clast.toolCallDeltas.foldl updateToolCallAcc
        (streamOAIState parse initOAIState cs).toolCallAcc
      = (toolCallFragments (cs ++ [clast])).foldl updateToolCallAcc [] := by
  rw [streamOAIState_toolCallAcc, toolCallFragments_append, List.foldl_append,
    show toolCallFragments [clast] = clast.toolCallDeltas by simp [toolCallFragments]]
  rfl

theorem buildFinalToolCalls_keysMap (parse : String → Option Json)
    (keys : List Int) (g : Int → OAIAccEntry) :
    buildFinalToolCalls parse (keys.map (fun i => (i, g i)))
      = keys.map (fun i => buildToolCall parse (g i)) := by
  simp [buildFinalToolCalls, List.map_map, Function.comp]

theorem oai_last_tool_calls (parse : String → Option Json) (cs : List OAIChunk)
    (clast : OAIChunk) (hA : ∀ c ∈ cs, c.finishReason = none) :
    (stepOAI parse (streamOAIState parse initOAIState cs) clast).2.tool_calls
      = if optTruthy clast.finishReason
            && !(((firstSeenKeys (toolCallFragments (cs ++ [clast]))).map
              (fun i => (i, specEntry (toolCallFragments (cs ++ [clast])) i))).isEmpty) then
          some (assembledToolCalls parse (cs ++ [clast]))
        else none := by
  have hfin : (streamOAIState parse initOAIState cs).finalToolCalls = none :=
    streamOAIState_finalToolCalls_none parse cs initOAIState hA rfl
  rw [stepOAI_snd_tool_calls, stepOAI_fst_finalToolCalls,
    oai_full_fold parse cs clast, hfin, fragFold_spec, buildFinalToolCalls_keysMap]
  rfl

theorem oaiGo_all_none_done_false (parse : String → Option Json) :
    ∀ (cs : List OAIChunk) (st : OAIState), (∀ c ∈ cs, c.finishReason = none) →
      ∀ out ∈ streamOAIGo parse st cs, out.done = false := by
  intro cs
  induction cs with
  | nil => intro st _ out hmem; simp [streamOAIGo] at hmem
  | cons c cs ih =>
    intro st hall out hmem
    rcases List.mem_cons.mp hmem with hl | hr
    · subst hl
      rw [stepOAI_snd_done, hall c (List.mem_cons_self _ _)]
      rfl
    · exact ih _ (fun x hx => hall x (List.mem_cons_of_mem c hx)) out hr

theorem oaiGo_no_early (parse : String → Option Json) :
    ∀ (cs : List OAIChunk) (st : OAIState), st.finalToolCalls = none →
      (∀ c ∈ cs.dropLast, c.finishReason = none) →
      ∀ out ∈ streamOAIGo parse st cs, out.done = false → out.tool_calls = none := by
  intro cs
  induction cs with
  | nil => intro st _ _ out hmem; simp [streamOAIGo] at hmem
  | cons c cs ih =>
    intro st h0 hdrop out hmem hdone
    rcases List.mem_cons.mp hmem with hl | hr
    · subst hl
      rw [stepOAI_snd_done] at hdone
      have hfin : c.finishReason = none := by
        cases hc : c.finishReason with
        | some r => rw [hc] at hdone; simp at hdone
        | none => rfl
      rw [stepOAI_snd_tool_calls, stepOAI_fst_finalToolCalls, hfin]
      simpa [optTruthy] using h0
    · cases cs with
      | nil => simp [streamOAIGo] at hr
      | cons c2 cs2 =>
        have hcfin : c.finishReason = none := by
          refine hdrop c ?_
          rw [show (c :: c2 :: cs2).dropLast = c :: (c2 :: cs2).dropLast from rfl]
          exact List.mem_cons_self _ _
        have h0' : (stepOAI parse st c).1.finalToolCalls = none := by
          rw [stepOAI_fst_finalToolCalls, hcfin]
          simpa [optTruthy] using h0
        have hdrop' : ∀ x ∈ (c2 :: cs2).dropLast, x.finishReason = none := by
          intro x hx
          refine hdrop x ?_
          rw [show (c :: c2 :: cs2).dropLast = c :: (c2 :: cs2).dropLast from rfl]
          exact List.mem_cons_of_mem _ hx
        exact ih _ h0' hdrop' out hr hdone

theorem ant_last_chunk (parse : String → Option Json) (core : List AntEvent) :
    streamAntGo parse (streamAntState parse initAntState core) [AntEvent.message_stop]
      = [{ content := none
           thinking := none
           tool_calls := if ((toolBlocks core).map (mkAntToolCall parse)).isEmpty then none
             else some ((toolBlocks core).map (mkAntToolCall parse))
           finish_reason := some (strOr
             ((streamAntState parse initAntState core).finishReason.getD "") "end_turn")
           done := true }] := by
  have hacc : (streamAntState parse initAntState core).accumulatedToolCalls
      = (toolBlocks core).map (mkAntToolCall parse) := by
    have h := streamAntState_acc parse core initAntState
    simpa [initAntState, toolBlocks] using h
  simp [streamAntGo, stepAnt]
  rw [hacc]

theorem strOr_empty (s : String) : strOr s "" = s := by
  unfold strOr
  split_ifs with h
  · exact h.symm
  · rfl

/-- C1: in a streaming turn whose tool-call fragments arrive split over at
least two incremental events, the final StreamChunk of either adapter
carries exactly one fully assembled ToolCall per distinct index (variant A,
first-seen order, no duplicates) or per tool_use block (variant B), whose
name and arguments come from the in-arrival-order concatenation of that
index's/block's fragments, the arguments being the JSON parse of the
concatenated argument text. The stream-shape hypotheses say the
finish_reason (variant A) and message_stop (variant B) arrive at the end of
the turn, as the wire protocols guarantee. -/
theorem C1_tool_call_assembly (parse : String → Option Json)
    (cs : List OAIChunk) (clast : OAIChunk) (r : String)
    (hApre : ∀ c ∈ cs, c.finishReason = none)
    (hAlast : clast.finishReason = some r) (hr : r ≠ "")
    (hAsplit : 2 ≤ (cs ++ [clast]).countP (fun c => !c.toolCallDeltas.isEmpty))
    (pre mids post : List AntEvent) (bid bname : String) (v : Json)
    (hBmids : ∀ e ∈ mids, isBlockBoundary e = false)
    (hBsplit : 2 ≤ mids.countP (fun e => (eventJsonFragment e).isSome))
    (hBparse : parse (jsonConcat mids) = some v) (hBne : jsonConcat mids ≠ "") :
    (∃ out : StreamChunk,
      (OpenAIClient.generateStream parse (cs ++ [clast])).getLast? = some out
      ∧ out.done = true
      ∧ out.tool_calls = some (assembledToolCalls parse (cs ++ [clast]))
      ∧ (firstSeenKeys (toolCallFragments (cs ++ [clast]))).Nodup
      ∧ (∀ i : Int, i ∈ firstSeenKeys (toolCallFragments (cs ++ [clast]))
          ↔ i ∈ (toolCallFragments (cs ++ [clast])).map OAIToolCallDelta.effIndex)
      ∧ (∀ i ∈ firstSeenKeys (toolCallFragments (cs ++ [clast])),
          (buildToolCall parse (specEntry (toolCallFragments (cs ++ [clast])) i)).function.name
            = nameConcatFor (toolCallFragments (cs ++ [clast])) i
          ∧ (buildToolCall parse
              (specEntry (toolCallFragments (cs ++ [clast])) i)).function.arguments
            = parseArgsText parse (argsConcatFor (toolCallFragments (cs ++ [clast])) i)))
    ∧ (∃ out : StreamChunk,
      (AnthropicClient.generateStream parse
        ((pre ++ AntEvent.content_block_start_tool_use bid bname
            :: (mids ++ AntEvent.content_block_stop :: post))
          ++ [AntEvent.message_stop])).getLast? = some out
      ∧ out.done = true
      ∧ out.tool_calls = some ((toolBlocks
          (pre ++ AntEvent.content_block_start_tool_use bid bname
            :: (mids ++ AntEvent.content_block_stop :: post))).map (mkAntToolCall parse))
      ∧ { id := bid, type := "function"
          function := { name := bname, arguments := v } : ToolCall }
          ∈ (toolBlocks
              (pre ++ AntEvent.content_block_start_tool_use bid bname
                :: (mids ++ AntEvent.content_block_stop :: post))).map
              (mkAntToolCall parse)) := by
  constructor
  · -- variant A
    refine ⟨(stepOAI parse (streamOAIState parse initOAIState cs) clast).2, ?_, ?_, ?_, ?_, ?_, ?_⟩
    · show (streamOAIGo parse initOAIState (cs ++ [clast])).getLast? = _
      rw [streamOAIGo_concat, List.getLast?_concat]
    · rw [stepOAI_snd_done, hAlast]
      rfl
    · have hfrag_ne : toolCallFragments (cs ++ [clast]) ≠ [] := by
        intro hnil
        have hall := (toolCallFragments_eq_nil_iff _).mp hnil
        have hzero : (cs ++ [clast]).countP (fun c => !c.toolCallDeltas.isEmpty) = 0 := by
          rw [List.countP_eq_zero]
          intro c hc
          simp [hall c hc]
        omega
      have hkeys_ne : firstSeenKeys (toolCallFragments (cs ++ [clast])) ≠ [] := by
        cases hf : toolCallFragments (cs ++ [clast]) with
        | nil => exact absurd hf hfrag_ne
        | cons f fs => simp [firstSeenKeys]
      rw [oai_last_tool_calls parse cs clast hApre, hAlast]
      have htr : optTruthy (some r) = true := by simp [optTruthy, hr]
      rw [htr]
      have hempty : ((firstSeenKeys (toolCallFragments (cs ++ [clast]))).map
          (fun i => (i, specEntry (toolCallFragments (cs ++ [clast])) i))).isEmpty = false := by
        cases hk : firstSeenKeys (toolCallFragments (cs ++ [clast])) with
        | nil => exact absurd hk hkeys_ne
        | cons k ks => simp
      rw [hempty]
      rfl
    · exact firstSeenKeys_nodup _
    · exact fun i => mem_firstSeenKeys i _
    · intro i _
      constructor
      · rw [show (buildToolCall parse (specEntry (toolCallFragments (cs ++ [clast])) i)).function.name
            = strOr (specEntry (toolCallFragments (cs ++ [clast])) i).name "" from rfl,
          strOr_empty, specEntry_name]
      · rw [show (buildToolCall parse (specEntry (toolCallFragments (cs ++ [clast])) i)).function.arguments
            = parseArgsText parse (specEntry (toolCallFragments (cs ++ [clast])) i).argumentsText from rfl,
          specEntry_args]
  · -- variant B
    have hblocks : toolBlocks
        (pre ++ AntEvent.content_block_start_tool_use bid bname
          :: (mids ++ AntEvent.content_block_stop :: post))
        = blocksFrom none pre
          ++ ({ id := bid, name := bname, inputJSON := jsonConcat mids }
              :: blocksFrom none post) := by
      rw [toolBlocks, blocksFrom_append]
      congr 1
      rw [show blocksFrom (curAfter none pre)
          (AntEvent.content_block_start_tool_use bid bname
            :: (mids ++ AntEvent.content_block_stop :: post))
        = blocksFrom (some { id := bid, name := bname, inputJSON := "" })
            (mids ++ AntEvent.content_block_stop :: post) from rfl,
        blocksFrom_neutral mids hBmids]
      simp
    have hmem : ({ id := bid, name := bname, inputJSON := jsonConcat mids } : AntCurrentTool)
        ∈ toolBlocks (pre ++ AntEvent.content_block_start_tool_use bid bname
            :: (mids ++ AntEvent.content_block_stop :: post)) := by
      rw [hblocks]
      exact List.mem_append_right _ (List.mem_cons_self _ _)
    have hbne : (toolBlocks (pre ++ AntEvent.content_block_start_tool_use bid bname
        :: (mids ++ AntEvent.content_block_stop :: post))).map (mkAntToolCall parse) ≠ [] := by
      intro hnil
      rw [List.map_eq_nil_iff] at hnil
      rw [hnil] at hmem
      simp at hmem
    have hsplit : AnthropicClient.generateStream parse
        ((pre ++ AntEvent.content_block_start_tool_use bid bname
            :: (mids ++ AntEvent.content_block_stop :: post)) ++ [AntEvent.message_stop])
        = streamAntGo parse initAntState
            (pre ++ AntEvent.content_block_start_tool_use bid bname
              :: (mids ++ AntEvent.content_block_stop :: post))
          ++ streamAntGo parse (streamAntState parse initAntState
              (pre ++ AntEvent.content_block_start_tool_use bid bname
                :: (mids ++ AntEvent.content_block_stop :: post)))
              [AntEvent.message_stop] :=
      streamAntGo_append parse _ _ _
    rw [hsplit, ant_last_chunk]
    have hie : ((toolBlocks (pre ++ AntEvent.content_block_start_tool_use bid bname
        :: (mids ++ AntEvent.content_block_stop :: post))).map (mkAntToolCall parse)).isEmpty
        = false := by
      cases hm : (toolBlocks (pre ++ AntEvent.content_block_start_tool_use bid bname
          :: (mids ++ AntEvent.content_block_stop :: post))).map (mkAntToolCall parse) with
      | nil => exact absurd hm hbne
      | cons x xs => simp
    refine ⟨_, List.getLast?_concat _, rfl, ?_, ?_⟩
    · rw [hie]
      rfl
    · have hval : mkAntToolCall parse
          { id := bid, name := bname, inputJSON := jsonConcat mids }
          = { id := bid, type := "function"
              function := { name := bname, arguments := v } : ToolCall } := by
        unfold mkAntToolCall antParseArgs
        rw [show strOr (jsonConcat mids) "\x7b\x7d" = jsonConcat mids from by
          unfold strOr; rw [if_neg hBne], hBparse]
        rfl
      rw [← hval]
      exact List.mem_map_of_mem _ hmem

/-- C2: no StreamChunk yielded with done=false carries a non-empty (indeed
any) tool-call list, in either adapter. For variant A the hypothesis states
the wire protocol's guarantee that a finish_reason only arrives on the
final chunk of the turn; variant B holds for every event stream. -/
theorem C2_no_early_tool_call_emission (parse : String → Option Json)
    (cs : List OAIChunk) (evs : List AntEvent)
    (hA : ∀ c ∈ cs.dropLast, c.finishReason = none) :
    (∀ out ∈ OpenAIClient.generateStream parse cs,
      out.done = false → out.tool_calls = none)
    ∧ (∀ out ∈ AnthropicClient.generateStream parse evs,
      out.done = false → out.tool_calls = none) :=
  ⟨oaiGo_no_early parse cs initOAIState rfl hA,
   antGo_done_false_tool_calls_none parse evs initAntState⟩

/-- C3: when the accumulated argument text of a tool call is not valid
JSON, the final chunk still contains that tool call and its arguments are
the empty object; the embedded generateStream functions are total, so no
error escapes (the source catches the JSON.parse throw). -/
theorem C3_malformed_json_degrades (parse : String → Option Json)
    (cs : List OAIChunk) (clast : OAIChunk) (r : String)
    (hApre : ∀ c ∈ cs, c.finishReason = none)
    (hAlast : clast.finishReason = some r) (hr : r ≠ "")
    (i : Int) (hi : i ∈ firstSeenKeys (toolCallFragments (cs ++ [clast])))
    (hpA : parse (argsConcatFor (toolCallFragments (cs ++ [clast])) i) = none)
    (pre mids post : List AntEvent) (bid bname : String)
    (hBmids : ∀ e ∈ mids, isBlockBoundary e = false)
    (hpB : parse (jsonConcat mids) = none) (hBne : jsonConcat mids ≠ "") :
    (∃ (out : StreamChunk) (tcs : List ToolCall),
      (OpenAIClient.generateStream parse (cs ++ [clast])).getLast? = some out
      ∧ out.tool_calls = some tcs
      ∧ buildToolCall parse (specEntry (toolCallFragments (cs ++ [clast])) i) ∈ tcs
      ∧ (buildToolCall parse
          (specEntry (toolCallFragments (cs ++ [clast])) i)).function.arguments
          = Json.emptyObj)
    ∧ (∃ (out : StreamChunk) (tcs : List ToolCall),
      (AnthropicClient.generateStream parse
        ((pre ++ AntEvent.content_block_start_tool_use bid bname
            :: (mids ++ AntEvent.content_block_stop :: post))
          ++ [AntEvent.message_stop])).getLast? = some out
      ∧ out.tool_calls = some tcs
      ∧ ({ id := bid, type := "function"
           function := { name := bname, arguments := Json.emptyObj } : ToolCall } ∈ tcs)) := by
  constructor
  · -- variant A
    have hkeys_ne : firstSeenKeys (toolCallFragments (cs ++ [clast])) ≠ [] := by
      intro hnil
      rw [hnil] at hi
      simp at hi
    have hempty : ((firstSeenKeys (toolCallFragments (cs ++ [clast]))).map
        (fun j => (j, specEntry (toolCallFragments (cs ++ [clast])) j))).isEmpty = false := by
      cases hk : firstSeenKeys (toolCallFragments (cs ++ [clast])) with
      | nil => exact absurd hk hkeys_ne
      | cons k ks => simp
    refine ⟨(stepOAI parse (streamOAIState parse initOAIState cs) clast).2,
      assembledToolCalls parse (cs ++ [clast]), ?_, ?_, ?_, ?_⟩
    · show (streamOAIGo parse initOAIState (cs ++ [clast])).getLast? = _
      rw [streamOAIGo_concat, List.getLast?_concat]
    · rw [oai_last_tool_calls parse cs clast hApre, hAlast]
      have htr : optTruthy (some r) = true := by simp [optTruthy, hr]
      rw [htr, hempty]
      rfl
    · exact List.mem_map_of_mem _ hi
    · rw [show (buildToolCall parse
          (specEntry (toolCallFragments (cs ++ [clast])) i)).function.arguments
          = parseArgsText parse
              (specEntry (toolCallFragments (cs ++ [clast])) i).argumentsText from rfl,
        specEntry_args]
      by_cases ht : argsConcatFor (toolCallFragments (cs ++ [clast])) i = ""
      · simp [parseArgsText, ht]
      · simp [parseArgsText, ht, hpA]
  · -- variant B
    have hblocks : toolBlocks
        (pre ++ AntEvent.content_block_start_tool_use bid bname
          :: (mids ++ AntEvent.content_block_stop :: post))
        = blocksFrom none pre
          ++ ({ id := bid, name := bname, inputJSON := jsonConcat mids }
              :: blocksFrom none post) := by
      rw [toolBlocks, blocksFrom_append]
      congr 1
      rw [show blocksFrom (curAfter none pre)
          (AntEvent.content_block_start_tool_use bid bname
            :: (mids ++ AntEvent.content_block_stop :: post))
        = blocksFrom (some { id := bid, name := bname, inputJSON := "" })
            (mids ++ AntEvent.content_block_stop :: post) from rfl,
        blocksFrom_neutral mids hBmids]
      simp
    have hmem : ({ id := bid, name := bname, inputJSON := jsonConcat mids } : AntCurrentTool)
        ∈ toolBlocks (pre ++ AntEvent.content_block_start_tool_use bid bname
            :: (mids ++ AntEvent.content_block_stop :: post)) := by
      rw [hblocks]
      exact List.mem_append_right _ (List.mem_cons_self _ _)
    have hbne : (toolBlocks (pre ++ AntEvent.content_block_start_tool_use bid bname
        :: (mids ++ AntEvent.content_block_stop :: post))).map (mkAntToolCall parse) ≠ [] := by
      intro hnil
      rw [List.map_eq_nil_iff] at hnil
      rw [hnil] at hmem
      simp at hmem
    have hie : ((toolBlocks (pre ++ AntEvent.content_block_start_tool_use bid bname
        :: (mids ++ AntEvent.content_block_stop :: post))).map (mkAntToolCall parse)).isEmpty
        = false := by
      cases hm : (toolBlocks (pre ++ AntEvent.content_block_start_tool_use bid bname
          :: (mids ++ AntEvent.content_block_stop :: post))).map (mkAntToolCall parse) with
      | nil => exact absurd hm hbne
      | cons x xs => simp
    have hsplit : AnthropicClient.generateStream parse
        ((pre ++ AntEvent.content_block_start_tool_use bid bname
            :: (mids ++ AntEvent.content_block_stop :: post)) ++ [AntEvent.message_stop])
        = streamAntGo parse initAntState
            (pre ++ AntEvent.content_block_start_tool_use bid bname
              :: (mids ++ AntEvent.content_block_stop :: post))
          ++ streamAntGo parse (streamAntState parse initAntState
              (pre ++ AntEvent.content_block_start_tool_use bid bname
                :: (mids ++ AntEvent.content_block_stop :: post)))
              [AntEvent.message_stop] :=
      streamAntGo_append parse _ _ _
    rw [hsplit, ant_last_chunk]
    refine ⟨_, (toolBlocks (pre ++ AntEvent.content_block_start_tool_use bid bname
        :: (mids ++ AntEvent.content_block_stop :: post))).map (mkAntToolCall parse),
      List.getLast?_concat _, ?_, ?_⟩
    · rw [hie]
      rfl
    · have hval : mkAntToolCall parse
          { id := bid, name := bname, inputJSON := jsonConcat mids }
          = { id := bid, type := "function"
              function := { name := bname, arguments := Json.emptyObj } : ToolCall } := by
        unfold mkAntToolCall antParseArgs
        rw [show strOr (jsonConcat mids) "\x7b\x7d" = jsonConcat mids from by
          unfold strOr; rw [if_neg hBne], hpB]
        rfl
      rw [← hval]
      exact List.mem_map_of_mem _ hmem

/-- C4: once a chunk with done=true has been yielded for a turn, no further
chunk follows (the done chunk is the last element of the yielded list), and
the tool calls it carries, if any, are the fully assembled list whose
argument values are parsed structured data. Hypotheses state the wire
protocols' turn shape: finish_reason only on the final chunk (variant A),
message_stop only as the final event (variant B). -/
theorem C4_done_is_terminal (parse : String → Option Json)
    (cs : List OAIChunk) (clast : OAIChunk)
    (hA : ∀ c ∈ cs, c.finishReason = none)
    (core : List AntEvent) (hB : ∀ e ∈ core, e ≠ AntEvent.message_stop) :
    (∀ (l r : List StreamChunk) (out : StreamChunk),
      OpenAIClient.generateStream parse (cs ++ [clast]) = l ++ out :: r →
      out.done = true →
      r = [] ∧ (out.tool_calls = none
        ∨ out.tool_calls = some (assembledToolCalls parse (cs ++ [clast]))))
    ∧ (∀ (l r : List StreamChunk) (out : StreamChunk),
      AnthropicClient.generateStream parse (core ++ [AntEvent.message_stop])
        = l ++ out :: r →
      out.done = true →
      r = [] ∧ (out.tool_calls = none
        ∨ out.tool_calls = some ((toolBlocks core).map (mkAntToolCall parse)))) := by
  constructor
  · intro l r out heq hdone
    rw [show OpenAIClient.generateStream parse (cs ++ [clast])
        = streamOAIGo parse initOAIState cs
          ++ [(stepOAI parse (streamOAIState parse initOAIState cs) clast).2] from
      streamOAIGo_concat parse cs initOAIState clast] at heq
    rcases concat_eq_append_cons _ _ _ _ _ heq with hin | ⟨hout, hrnil⟩
    · have hf := oaiGo_all_none_done_false parse cs initOAIState hA out hin
      rw [hf] at hdone
      simp at hdone
    · subst hout
      refine ⟨hrnil, ?_⟩
      rw [oai_last_tool_calls parse cs clast hA]
      split_ifs with hcond
      · right; rfl
      · left; rfl
  · intro l r out heq hdone
    rw [show AnthropicClient.generateStream parse (core ++ [AntEvent.message_stop])
        = streamAntGo parse initAntState core
          ++ streamAntGo parse (streamAntState parse initAntState core)
              [AntEvent.message_stop] from
      streamAntGo_append parse core [AntEvent.message_stop] initAntState,
      ant_last_chunk] at heq
    rcases concat_eq_append_cons _ _ _ _ _ heq with hin | ⟨hout, hrnil⟩
    · have hf := antGo_no_message_stop_done_false parse core initAntState hB out hin
      rw [hf] at hdone
      simp at hdone
    · subst hout
      refine ⟨hrnil, ?_⟩
      dsimp only
      split_ifs with h
      · left; rfl
      · right; rfl

/-! ## Concrete streams used by the witnesses -/

/-- A concrete JSON parser stand-in for witnesses: only "ab" is valid JSON. -/
def toyParse : String → Option Json
  | "ab" => some (Json.obj [("k", Json.num 1)])
  | _ => none

/-- First tool-call fragment: index 0, id, name "ba", argument text "a". -/
def wFrag1 : OAIToolCallDelta :=
  { index := some 0
    id := some "call1"
    type := some "function"
    function := some { name := some "ba", arguments := some "a" } }

/-- Second tool-call fragment for the same index: name "sh", argument text "b". -/
def wFrag2 : OAIToolCallDelta :=
  { index := some 0
    id := none
    type := none
    function := some { name := some "sh", arguments := some "b" } }

/-- A mid-stream chunk carrying the first fragment, no finish_reason. -/
def wChunkMid : OAIChunk :=
  { choices := [{ delta := some { content := none, reasoning := none
                                  tool_calls := some [wFrag1] }
                  finish_reason := none }] }

/-- The terminal chunk carrying the second fragment and the finish_reason. -/
def wChunkLast : OAIChunk :=
  { choices := [{ delta := some { content := none, reasoning := none
                                  tool_calls := some [wFrag2] }
                  finish_reason := some "tool_calls" }] }

/-- Two json fragments for one Anthropic tool_use block. -/
def wAntMids : List AntEvent :=
  [AntEvent.content_block_delta (AntDelta.input_json_delta "a"),
   AntEvent.content_block_delta (AntDelta.input_json_delta "b")]

/-- The tool call the OpenAI-variant accumulator assembles in the witness
streams. -/
def wToolCallA : ToolCall :=
  { id := "call1", type := "function"
    function := { name := "bash", arguments := Json.obj [("k", Json.num 1)] } }

/-- The tool call the Anthropic-variant accumulator assembles in the
witness streams. -/
def wToolCallB : ToolCall :=
  { id := "b1", type := "function"
    function := { name := "bash", arguments := Json.obj [("k", Json.num 1)] } }

/-- The first chunk the OpenAI adapter yields for the witness stream. -/
def wOutA1 : StreamChunk :=
  { content := none, thinking := none, tool_calls := none
    finish_reason := none, done := false }

/-- The final chunk the OpenAI adapter yields for the witness stream. -/
def wOutA2 : StreamChunk :=
  { content := none, thinking := none, tool_calls := some [wToolCallA]
    finish_reason := some "tool_calls", done := true }

/-- The final chunk the Anthropic adapter yields for the witness stream. -/
def wOutB : StreamChunk :=
  { content := none, thinking := none, tool_calls := some [wToolCallB]
    finish_reason := some "end_turn", done := true }

/-- The Anthropic witness turn before message_stop: one tool_use block
whose json arrives in two fragments. -/
def wAntCore : List AntEvent :=
  AntEvent.content_block_start_tool_use "b1" "bash"
    :: (wAntMids ++ [AntEvent.content_block_stop])

/-- C1 witness: a two-event split tool call on each adapter assembles into
one ToolCall with the concatenated name and parsed concatenated arguments
in the final chunk. -/
theorem C1_tool_call_assembly_witness :
    (OpenAIClient.generateStream toyParse ([wChunkMid] ++ [wChunkLast])).getLast?
        = some wOutA2
    ∧ wOutA2.done = true
    ∧ wOutA2.tool_calls = some (assembledToolCalls toyParse ([wChunkMid] ++ [wChunkLast]))
    ∧ assembledToolCalls toyParse ([wChunkMid] ++ [wChunkLast]) = [wToolCallA]
    ∧ (AnthropicClient.generateStream toyParse
        (wAntCore ++ [AntEvent.message_stop])).getLast? = some wOutB
    ∧ wOutB.done = true
    ∧ wToolCallB ∈ wOutB.tool_calls.getD [] := by
  obtain ⟨⟨oA, h1, h2, h3, -, -, -⟩, ⟨oB, g1, g2, g3, g4⟩⟩ :=
    C1_tool_call_assembly toyParse [wChunkMid] wChunkLast "tool_calls"
      (by decide) rfl (by decide) (by decide)
      [] wAntMids [] "b1" "bash" (Json.obj [("k", Json.num 1)])
      (by decide) (by decide) rfl (by decide)
  have heqA : oA = wOutA2 := Option.some_inj.mp (h1.symm.trans
    (show (OpenAIClient.generateStream toyParse ([wChunkMid] ++ [wChunkLast])).getLast?
      = some wOutA2 from rfl))
  have heqB : oB = wOutB := Option.some_inj.mp (g1.symm.trans
    (show (AnthropicClient.generateStream toyParse
        (([] ++ AntEvent.content_block_start_tool_use "b1" "bash"
            :: (wAntMids ++ AntEvent.content_block_stop :: ([] : List AntEvent)))
          ++ [AntEvent.message_stop])).getLast? = some wOutB from rfl))
  rw [heqA] at h1 h2 h3
  rw [heqB] at g1 g2 g3
  exact ⟨h1, h2, h3, rfl, g1, g2, by
    rw [show wOutB.tool_calls.getD [] = (toolBlocks
        ([] ++ AntEvent.content_block_start_tool_use "b1" "bash"
          :: (wAntMids ++ AntEvent.content_block_stop
            :: ([] : List AntEvent)))).map (mkAntToolCall toyParse) from by
      rw [g3]; rfl]
    exact g4⟩

/-- An Anthropic witness turn with a leading text delta. -/
def wAntEvents : List AntEvent :=
  AntEvent.content_block_delta (AntDelta.text_delta "hi") :: wAntCore
    ++ [AntEvent.message_stop]

/-- The text chunk the Anthropic adapter yields first for `wAntEvents`. -/
def wOutBText : StreamChunk :=
  { content := some "hi", thinking := none, tool_calls := none
    finish_reason := none, done := false }

/-- C2 witness: on concrete streams of both adapters, the chunks yielded
with done=false carry no tool calls. -/
theorem C2_no_early_tool_call_emission_witness :
    wOutA1.tool_calls = none ∧ wOutBText.tool_calls = none := by
  have h := C2_no_early_tool_call_emission toyParse [wChunkMid, wChunkLast]
    wAntEvents (by decide)
  constructor
  · exact h.1 wOutA1
      (List.mem_cons_self wOutA1 [wOutA2]
        : wOutA1 ∈ OpenAIClient.generateStream toyParse [wChunkMid, wChunkLast])
      rfl
  · exact h.2 wOutBText
      (List.mem_cons_self wOutBText [wOutB]
        : wOutBText ∈ AnthropicClient.generateStream toyParse wAntEvents)
      rfl

/-- First fragment with argument text "x" (part of invalid JSON "xy"). -/
def wFrag1Bad : OAIToolCallDelta :=
  { index := some 0
    id := some "call1"
    type := some "function"
    function := some { name := some "ba", arguments := some "x" } }

/-- Second fragment with argument text "y" (part of invalid JSON "xy"). -/
def wFrag2Bad : OAIToolCallDelta :=
  { index := some 0
    id := none
    type := none
    function := some { name := some "sh", arguments := some "y" } }

/-- Mid-stream chunk carrying `wFrag1Bad`. -/
def wChunkMidBad : OAIChunk :=
  { choices := [{ delta := some { content := none, reasoning := none
                                  tool_calls := some [wFrag1Bad] }
                  finish_reason := none }] }

/-- Terminal chunk carrying `wFrag2Bad` and the finish_reason. -/
def wChunkLastBad : OAIChunk :=
  { choices := [{ delta := some { content := none, reasoning := none
                                  tool_calls := some [wFrag2Bad] }
                  finish_reason := some "tool_calls" }] }

/-- Two json fragments concatenating to the invalid JSON "xy". -/
def wAntMidsBad : List AntEvent :=
  [AntEvent.content_block_delta (AntDelta.input_json_delta "x"),
   AntEvent.content_block_delta (AntDelta.input_json_delta "y")]

/-- The degraded tool call of the OpenAI bad-JSON witness stream. -/
def wToolCallABad : ToolCall :=
  { id := "call1", type := "function"
    function := { name := "bash", arguments := Json.emptyObj } }

/-- The degraded tool call of the Anthropic bad-JSON witness stream. -/
def wToolCallBBad : ToolCall :=
  { id := "b1", type := "function"
    function := { name := "bash", arguments := Json.emptyObj } }

/-- The final chunk of the OpenAI bad-JSON witness stream. -/
def wOutA2Bad : StreamChunk :=
  { content := none, thinking := none, tool_calls := some [wToolCallABad]
    finish_reason := some "tool_calls", done := true }

/-- The final chunk of the Anthropic bad-JSON witness stream. -/
def wOutBBad : StreamChunk :=
  { content := none, thinking := none, tool_calls := some [wToolCallBBad]
    finish_reason := some "end_turn", done := true }

/-- C3 witness: the concatenated argument text "xy" is not valid JSON under
`toyParse`; on both adapters the final chunk still carries the tool call,
with `{}` arguments. -/
theorem C3_malformed_json_degrades_witness :
    (OpenAIClient.generateStream toyParse ([wChunkMidBad] ++ [wChunkLastBad])).getLast?
        = some wOutA2Bad
    ∧ (buildToolCall toyParse
        (specEntry (toolCallFragments ([wChunkMidBad] ++ [wChunkLastBad])) 0)).function.arguments
        = Json.emptyObj
    ∧ buildToolCall toyParse
        (specEntry (toolCallFragments ([wChunkMidBad] ++ [wChunkLastBad])) 0)
        ∈ wOutA2Bad.tool_calls.getD []
    ∧ (AnthropicClient.generateStream toyParse
        (([] ++ AntEvent.content_block_start_tool_use "b1" "bash"
            :: (wAntMidsBad ++ AntEvent.content_block_stop :: ([] : List AntEvent)))
          ++ [AntEvent.message_stop])).getLast? = some wOutBBad
    ∧ wToolCallBBad ∈ wOutBBad.tool_calls.getD [] := by
  obtain ⟨⟨oA, tA, h1, h2, h3, h4⟩, ⟨oB, tB, g1, g2, g3⟩⟩ :=
    C3_malformed_json_degrades toyParse [wChunkMidBad] wChunkLastBad "tool_calls"
      (by decide) rfl (by decide) 0 (by decide) rfl
      [] wAntMidsBad [] "b1" "bash" (by decide) rfl (by decide)
  have heqA : oA = wOutA2Bad := Option.some_inj.mp (h1.symm.trans
    (show (OpenAIClient.generateStream toyParse
      ([wChunkMidBad] ++ [wChunkLastBad])).getLast? = some wOutA2Bad from rfl))
  have heqB : oB = wOutBBad := Option.some_inj.mp (g1.symm.trans
    (show (AnthropicClient.generateStream toyParse
        (([] ++ AntEvent.content_block_start_tool_use "b1" "bash"
            :: (wAntMidsBad ++ AntEvent.content_block_stop :: ([] : List AntEvent)))
          ++ [AntEvent.message_stop])).getLast? = some wOutBBad from rfl))
  rw [heqA] at h1 h2
  rw [heqB] at g1 g2
  have htA : wOutA2Bad.tool_calls.getD [] = tA := by rw [h2]; rfl
  have htB : wOutBBad.tool_calls.getD [] = tB := by rw [g2]; rfl
  exact ⟨h1, h4, htA ▸ h3, g1, htB ▸ g3⟩

/-- C4 witness: on concrete streams of both adapters, the done=true chunk
is last and carries the fully assembled tool-call list. -/
theorem C4_done_is_terminal_witness :
    (wOutA2.tool_calls = none
      ∨ wOutA2.tool_calls = some (assembledToolCalls toyParse ([wChunkMid] ++ [wChunkLast])))
    ∧ (wOutB.tool_calls = none
      ∨ wOutB.tool_calls = some ((toolBlocks wAntCore).map (mkAntToolCall toyParse))) := by
  have h := C4_done_is_terminal toyParse [wChunkMid] wChunkLast (by decide)
    wAntCore (by decide)
  exact ⟨(h.1 [wOutA1] [] wOutA2 rfl rfl).2, (h.2 [] [] wOutB rfl rfl).2⟩

end MiniAgent
